import Mathlib

/-!
Verification of the RAG + routing engine of the genai-showcase repository.

Each definition below is a shallow embedding of a function of the Python
source, translated statement by statement.  External collaborators (the LLM,
the HTTP client, the filesystem) are passed in as explicit arguments, so the
embedded functions are pure and executable.  File references point into the
repository (`apps/cloud-rag/...`, `apps/edge-server/...`).
-/

namespace GenaiShowcase

/-! ## Generic helpers

`pyListMax` mirrors Python's `max(iterable, default=None)` on strings:
lexicographic comparison over code points, returning the first maximal
element (for strings, equal elements are identical).  `pySortDescBy`
mirrors Python's stable `list.sort(key=..., reverse=True)`: Mathlib's
`insertionSort` with the relation `σ b ≤ σ a` inserts each element before
the first element whose key is `≤` its own, which is exactly the stable
descending order. -/

def pyListMax (l : List String) : Option String :=
  match l with
  | [] => none
  | x :: xs => some (xs.foldl (fun a b => if a < b then b else a) x)

def pySortDescBy {α : Type} (σ : α → ℚ) (l : List α) : List α :=
  l.insertionSort (fun a b => σ b ≤ σ a)

theorem pySortDescBy_perm {α : Type} (σ : α → ℚ) (l : List α) :
    List.Perm (pySortDescBy σ l) l :=
  List.perm_insertionSort _ l

theorem pySortDescBy_sorted {α : Type} (σ : α → ℚ) (l : List α) :
    List.Sorted (fun a b => σ b ≤ σ a) (pySortDescBy σ l) := by
  letI : IsTotal α (fun a b => σ b ≤ σ a) := ⟨fun a b => le_total (σ b) (σ a)⟩
  letI : IsTrans α (fun a b => σ b ≤ σ a) := ⟨fun _ _ _ h h' => le_trans h' h⟩
  exact List.sorted_insertionSort _ l

theorem pyListMax_mem {l : List String} {m : String} (h : pyListMax l = some m) :
    m ∈ l := by
  match l with
  | [] => simp [pyListMax] at h
  | x :: xs =>
    simp only [pyListMax, Option.some.injEq] at h
    subst h
    induction xs generalizing x with
    | nil => simp
    | cons y ys ih =>
      simp only [List.foldl_cons]
      by_cases hxy : x < y
      · simp only [hxy, if_pos]
        rcases List.mem_cons.mp (ih y) with h | h
        · exact List.mem_cons.mpr (Or.inr (List.mem_cons.mpr (Or.inl h)))
        · exact List.mem_cons.mpr (Or.inr (List.mem_cons.mpr (Or.inr h)))
      · simp only [hxy, if_neg, not_false_iff]
        rcases List.mem_cons.mp (ih x) with h | h
        · exact List.mem_cons.mpr (Or.inl h)
        · exact List.mem_cons.mpr (Or.inr (List.mem_cons.mpr (Or.inr h)))

/-! ## Component L: Feedback Store (`apps/cloud-rag/services/feedback_store.py`)

`upsert_feedback_batch` opens one SQLite connection/transaction and, for each
item, attempts an `INSERT` into the `feedback` table whose PRIMARY KEY is
`feedback_id`.  A successful insert counts as accepted; an
`sqlite3.IntegrityError` (primary-key conflict, either with a pre-existing
row or with a row inserted earlier in the same transaction) counts as a
duplicate.  The embedding carries the set of present `feedback_id`s as an
explicit list of strings (the database rows); the other columns do not
influence control flow. -/

structure FeedbackItem where
  feedback_id : String
  interactionId : String
  score : Int
  label : String
  comment : String
  created_at : String
  deriving DecidableEq

def upsertStep (st : Nat × Nat × List String) (it : FeedbackItem) :
    Nat × Nat × List String :=
  if it.feedback_id ∈ st.2.2 then (st.1, st.2.1 + 1, st.2.2)
  else (st.1 + 1, st.2.1, st.2.2 ++ [it.feedback_id])

def upsert_feedback_batch (existingRows : List String) (items : List FeedbackItem) :
    Nat × Nat × List String :=
  items.foldl upsertStep (0, 0, existingRows)

theorem upsert_counts_general (items : List FeedbackItem) :
    ∀ (a d : Nat) (rows : List String),
      (items.foldl upsertStep (a, d, rows)).1 + (items.foldl upsertStep (a, d, rows)).2.1
        = a + d + items.length := by
  induction items with
  | nil => intro a d rows; simp
  | cons it rest ih =>
    intro a d rows
    simp only [List.foldl_cons, upsertStep]
    by_cases h : it.feedback_id ∈ rows
    · simp only [h, if_pos]
      rw [ih]
      simp only [List.length_cons]
      omega
    · simp only [h, if_neg, not_false_iff]
      rw [ih]
      simp only [List.length_cons]
      omega

theorem upsert_rows_general (items : List FeedbackItem) :
    ∀ (a d : Nat) (rows : List String) (fid : String),
      (fid ∈ (items.foldl upsertStep (a, d, rows)).2.2)
        ↔ (fid ∈ rows ∨ fid ∈ items.map FeedbackItem.feedback_id) := by
  induction items with
  | nil => intro a d rows fid; simp
  | cons it rest ih =>
    intro a d rows fid
    simp only [List.foldl_cons, upsertStep]
    by_cases h : it.feedback_id ∈ rows
    · simp only [h, if_pos, ih, List.map_cons, List.mem_cons]
      constructor
      · rintro (hr | hm)
        · exact Or.inl hr
        · exact Or.inr (Or.inr hm)
      · rintro (hr | hh | hm)
        · exact Or.inl hr
        · exact Or.inl (hh ▸ h)
        · exact Or.inr hm
    · simp only [h, if_neg, not_false_iff, ih, List.map_cons, List.mem_cons,
        List.mem_append, List.mem_singleton]
      tauto

def demoBatch : List FeedbackItem :=
  [ ⟨"aaaa", "i1", 1, "positive", "", "2024-01-01T00:00:00+00:00"⟩,
    ⟨"bbbb", "i2", -1, "negative", "", "2024-01-02T00:00:00+00:00"⟩,
    ⟨"aaaa", "i3", 1, "positive", "", "2024-01-03T00:00:00+00:00"⟩,
    ⟨"cccc", "i4", 1, "positive", "", "2024-01-04T00:00:00+00:00"⟩ ]

/-- C7: `upsert_feedback_batch` returns `(accepted, duplicates)` with
`accepted + duplicates = len(items)`; the i-th item counts as a duplicate
exactly when its `feedback_id` conflicts with an existing row or with an
earlier item of the same batch; a batch of four items in which two share a
`feedback_id` yields `accepted = 3, duplicates = 1`. -/
theorem upsert_feedback_batch_counts
    (existingRows : List String) (items : List FeedbackItem) :
    ((upsert_feedback_batch existingRows items).1
      + (upsert_feedback_batch existingRows items).2.1 = items.length)
    ∧ (∀ i, ∀ h : i < items.length,
        (((items.take (i+1)).foldl upsertStep (0, 0, existingRows)).2.1
          = ((items.take i).foldl upsertStep (0, 0, existingRows)).2.1 + 1
        ↔ ((items.get ⟨i, h⟩).feedback_id ∈ existingRows
            ∨ (items.get ⟨i, h⟩).feedback_id
                ∈ (items.take i).map FeedbackItem.feedback_id)))
    ∧ ((upsert_feedback_batch [] demoBatch).1 = 3
        ∧ (upsert_feedback_batch [] demoBatch).2.1 = 1) := by
  refine ⟨?_, ?_, by decide⟩
  · simpa using upsert_counts_general items 0 0 existingRows
  · intro i h
    rw [List.take_succ]
    rw [List.getElem?_eq_getElem h]
    simp only [List.get_eq_getElem, Option.toList_some, List.foldl_append,
      List.foldl_cons, List.foldl_nil]
    by_cases hmem : items[i].feedback_id
        ∈ ((items.take i).foldl upsertStep (0, 0, existingRows)).2.2
    · rw [upsertStep, if_pos hmem]
      have hiff := (upsert_rows_general (items.take i) 0 0 existingRows
        items[i].feedback_id).mp hmem
      simpa using hiff
    · rw [upsertStep, if_neg hmem]
      constructor
      · intro heq
        exact absurd heq (by simp)
      · intro hrhs
        exact absurd ((upsert_rows_general (items.take i) 0 0 existingRows
          items[i].feedback_id).mpr hrhs) hmem

/-- C7 witness: the count identity applied to the concrete four-item batch. -/
theorem upsert_feedback_batch_counts_witness :
    (upsert_feedback_batch [] demoBatch).1
      + (upsert_feedback_batch [] demoBatch).2.1 = demoBatch.length :=
  (upsert_feedback_batch_counts [] demoBatch).1

/-! ## JSON values

A small model of Python's JSON values (`json.loads` output).  Number
literals keep their lexeme: no claim depends on float semantics.  Objects
are association lists in insertion order; `dictInsert` mirrors Python's
`d[k] = v` (replace in place, else append), so parsed objects never hold a
duplicate key, exactly like a Python `dict`. -/

inductive Json where
  | null : Json
  | bool : Bool → Json
  | num : String → Json
  | str : String → Json
  | arr : List Json → Json
  | obj : List (String × Json) → Json

def dictInsert {α : Type} (k : String) (v : α) : List (String × α) → List (String × α)
  | [] => [(k, v)]
  | (k', v') :: rest => if k' = k then (k, v) :: rest else (k', v') :: dictInsert k v rest

def dictLookup {α : Type} (k : String) : List (String × α) → Option α
  | [] => none
  | (k', v') :: rest => if k' = k then some v' else dictLookup k rest

def dictRemove {α : Type} (k : String) : List (String × α) → List (String × α)
  | [] => []
  | (k', v') :: rest => if k' = k then rest else (k', v') :: dictRemove k rest

def jsonObjFields : Json → List (String × Json)
  | Json.obj fields => fields
  | _ => []

/-! ## Component G: RAG HTTP boundary (`apps/cloud-rag/api/rag.py`)

`answer_rag` wraps the chain invocation in a broad `try/except`.  The chain
and the telemetry sink are external collaborators, so the chain outcome is
an explicit argument: `Except.ok obj` stands for `json.loads(run_chain(...))`
succeeding with `obj`, `Except.error e` for any raised exception with
`str(e) = e`.  On error the handler returns HTTP 500 with the literal body
`{"message": "RAG pipeline error", "type": "error", "detail": str(e)}`. -/

structure HttpResponseModel where
  status : Nat
  body : Json

def answer_rag (question interactionId : String) (topK : Int)
    (chainResult : Except String Json) : HttpResponseModel :=
  let _ := question
  let _ := interactionId
  let _ := topK
  match chainResult with
  | Except.ok obj => ⟨200, obj⟩
  | Except.error e =>
      ⟨500, Json.obj [("message", Json.str "RAG pipeline error"),
                      ("type", Json.str "error"),
                      ("detail", Json.str e)]⟩

/-- C9 counterexample: for the concrete request `interactionId = "id-1"` and a
chain failure `"boom"`, the HTTP 500 body is exactly
`{message: "RAG pipeline error", type: "error", detail: "boom"}` — it has no
`interactionId` key and no field holding `"id-1"`, so the error response does
not retain the request's `interactionId`. -/
theorem answer_rag_drops_interaction_id :
    answer_rag "save energy" "id-1" 3 (Except.error "boom")
      = ⟨500, Json.obj [("message", Json.str "RAG pipeline error"),
                        ("type", Json.str "error"),
                        ("detail", Json.str "boom")]⟩
    ∧ dictLookup "interactionId"
        (jsonObjFields (answer_rag "save energy" "id-1" 3 (Except.error "boom")).body)
      = none := by
  exact ⟨rfl, rfl⟩

/-- C9 (amended): on any error on the cloud RAG answer path, the HTTP 500
body consists of exactly the keys `message`, `type`, `detail` — a short
human-readable message and the exception detail — and does **not** contain
the request's `interactionId` (the interaction id is attached only to the
best-effort trace metadata, not to the response body). -/
theorem answer_rag_error_body (question interactionId : String) (topK : Int)
    (e : String) :
    (answer_rag question interactionId topK (Except.error e)).status = 500
    ∧ (jsonObjFields (answer_rag question interactionId topK (Except.error e)).body).map
        Prod.fst = ["message", "type", "detail"]
    ∧ dictLookup "interactionId"
        (jsonObjFields (answer_rag question interactionId topK (Except.error e)).body)
      = none
    ∧ dictLookup "message"
        (jsonObjFields (answer_rag question interactionId topK (Except.error e)).body)
      = some (Json.str "RAG pipeline error") := by
  refine ⟨rfl, rfl, ?_, ?_⟩ <;> simp [answer_rag, jsonObjFields, dictLookup]

/-! ## `json.loads` (Python stdlib, used throughout the cloud service)

A recursive-descent parser for the JSON grammar accepted by Python's
`json.loads`: objects, arrays, strings with the standard escapes, number
lexemes matching `-?(0|[1-9]\d*)(\.\d+)?([eE][+-]?\d+)?`, the literals
`true/false/null` and Python's non-standard `NaN`, `Infinity`, `-Infinity`.
Surrogate-pair recombination of `\uXXXX` escapes is not modelled (no claim
touches it).  The parser is fuelled; the fuel bound is generous since every
recursive call consumes input. -/

def braceOpen : Char := Char.ofNat 123

def braceClose : Char := Char.ofNat 125

def backtick : Char := Char.ofNat 96

def jsonWsChar (c : Char) : Bool := c = ' ' || c = '\t' || c = '\n' || c = '\r'

def skipJsonWs : List Char → List Char
  | [] => []
  | c :: cs => if jsonWsChar c then skipJsonWs cs else c :: cs

def isDigitChar (c : Char) : Bool := '0' ≤ c && c ≤ '9'

def isAlphaChar (c : Char) : Bool := ('a' ≤ c && c ≤ 'z') || ('A' ≤ c && c ≤ 'Z')

def hexVal (c : Char) : Option Nat :=
  let n := c.toNat
  if 47 < n && n < 58 then some (n - 48)
  else if 96 < n && n < 103 then some (n - 87)
  else if 64 < n && n < 71 then some (n - 55)
  else none

def escChar (e : Char) : Option Char :=
  if e = '"' then some '"'
  else if e = '\\' then some '\\'
  else if e = '/' then some '/'
  else if e = 'b' then some '\x08'
  else if e = 'f' then some '\x0c'
  else if e = 'n' then some '\n'
  else if e = 'r' then some '\r'
  else if e = 't' then some '\t'
  else none

def parseJsonStringBody : List Char → Option (List Char × List Char)
  | [] => none
  | c :: cs =>
    if c = '"' then some ([], cs)
    else if c = '\\' then
      match cs with
      | 'u' :: h1 :: h2 :: h3 :: h4 :: cs2 =>
        match hexVal h1, hexVal h2, hexVal h3, hexVal h4 with
        | some a, some b, some c2, some d =>
          (parseJsonStringBody cs2).map
            (fun p => (Char.ofNat (((a * 16 + b) * 16 + c2) * 16 + d) :: p.1, p.2))
        | _, _, _, _ => none
      | e :: cs1 =>
        match escChar e with
        | none => none
        | some ch => (parseJsonStringBody cs1).map (fun p => (ch :: p.1, p.2))
      | [] => none
    else if c.toNat < 32 then none
    else (parseJsonStringBody cs).map (fun p => (c :: p.1, p.2))

def takeDigits : List Char → List Char × List Char
  | [] => ([], [])
  | c :: cs =>
    if isDigitChar c then
      let (d, r) := takeDigits cs
      (c :: d, r)
    else ([], c :: cs)

def numExpPart (acc : List Char) (cs : List Char) : List Char × List Char :=
  match cs with
  | e :: rest =>
    if e = 'e' || e = 'E' then
      match rest with
      | s :: rest2 =>
        if s = '+' || s = '-' then
          match takeDigits rest2 with
          | ([], _) => (acc, cs)
          | (ds, r) => (acc ++ e :: s :: ds, r)
        else
          match takeDigits rest with
          | ([], _) => (acc, cs)
          | (ds, r) => (acc ++ e :: ds, r)
      | [] => (acc, cs)
    else (acc, cs)
  | [] => (acc, cs)

def numFracPart (acc : List Char) (cs : List Char) : List Char × List Char :=
  match cs with
  | c :: rest =>
    if c = '.' then
      match takeDigits rest with
      | ([], _) => (acc, cs)
      | (ds, r) => (acc ++ '.' :: ds, r)
    else (acc, cs)
  | [] => (acc, cs)

def parseNumberLexeme (cs : List Char) : Option (List Char × List Char) :=
  let (sign, cs1) : List Char × List Char :=
    match cs with
    | '-' :: rest => (['-'], rest)
    | _ => ([], cs)
  match cs1 with
  | [] => none
  | c :: rest =>
    if c = '0' then
      let (acc, cs2) := numFracPart (sign ++ ['0']) rest
      let (acc2, cs3) := numExpPart acc cs2
      some (acc2, cs3)
    else if isDigitChar c then
      let (ds, r) := takeDigits rest
      let (acc, cs2) := numFracPart (sign ++ c :: ds) r
      let (acc2, cs3) := numExpPart acc cs2
      some (acc2, cs3)
    else none

def stripLit : List Char → List Char → Option (List Char)
  | [], rest => some rest
  | l :: ls, c :: rest => if c = l then stripLit ls rest else none
  | _ :: _, [] => none

mutual

def parseJsonValue : Nat → List Char → Option (Json × List Char)
  | 0, _ => none
  | fuel + 1, cs =>
    match cs with
    | [] => none
    | c :: rest =>
      if c = '"' then
        match parseJsonStringBody rest with
        | some (out, rem) => some (Json.str (String.mk out), rem)
        | none => none
      else if c = braceOpen then parseJsonObjBody fuel (skipJsonWs rest) [] true
      else if c = '[' then parseJsonArrBody fuel (skipJsonWs rest) [] true
      else
        match stripLit ['t', 'r', 'u', 'e'] cs with
        | some rem => some (Json.bool true, rem)
        | none =>
        match stripLit ['f', 'a', 'l', 's', 'e'] cs with
        | some rem => some (Json.bool false, rem)
        | none =>
        match stripLit ['n', 'u', 'l', 'l'] cs with
        | some rem => some (Json.null, rem)
        | none =>
        match stripLit ['N', 'a', 'N'] cs with
        | some rem => some (Json.num "NaN", rem)
        | none =>
        match stripLit ['I', 'n', 'f', 'i', 'n', 'i', 't', 'y'] cs with
        | some rem => some (Json.num "Infinity", rem)
        | none =>
        match stripLit ['-', 'I', 'n', 'f', 'i', 'n', 'i', 't', 'y'] cs with
        | some rem => some (Json.num "-Infinity", rem)
        | none =>
        match parseNumberLexeme cs with
        | some (lex, rem) => some (Json.num (String.mk lex), rem)
        | none => none

def parseJsonObjBody : Nat → List Char → List (String × Json) → Bool →
    Option (Json × List Char)
  | 0, _, _, _ => none
  | fuel + 1, cs, acc, first =>
    match cs with
    | [] => none
    | c :: rest =>
      if first && c = braceClose then some (Json.obj acc, rest)
      else if c = '"' then
        match parseJsonStringBody rest with
        | none => none
        | some (keyChars, afterKey) =>
          match skipJsonWs afterKey with
          | ':' :: afterColon =>
            match parseJsonValue fuel (skipJsonWs afterColon) with
            | none => none
            | some (v, afterVal) =>
              let acc2 := dictInsert (String.mk keyChars) v acc
              match skipJsonWs afterVal with
              | ',' :: afterComma => parseJsonObjBody fuel (skipJsonWs afterComma) acc2 false
              | d :: afterBrace =>
                if d = braceClose then some (Json.obj acc2, afterBrace) else none
              | [] => none
          | _ => none
      else none

def parseJsonArrBody : Nat → List Char → List Json → Bool → Option (Json × List Char)
  | 0, _, _, _ => none
  | fuel + 1, cs, acc, first =>
    match cs with
    | [] => none
    | c :: rest =>
      if first && c = ']' then some (Json.arr acc, rest)
      else
        match parseJsonValue fuel cs with
        | none => none
        | some (v, afterVal) =>
          match skipJsonWs afterVal with
          | ',' :: afterComma => parseJsonArrBody fuel (skipJsonWs afterComma) (acc ++ [v]) false
          | d :: afterBr => if d = ']' then some (Json.arr (acc ++ [v]), afterBr) else none
          | [] => none

end

def json_loads (s : String) : Option Json :=
  match parseJsonValue (3 * s.length + 4) (skipJsonWs s.data) with
  | none => none
  | some (v, rest) => if skipJsonWs rest = [] then some v else none

/-! ## `sanitize_json_text` (`apps/cloud-rag/rag/chain.py`, lines 1028-1047)

`t = text.strip()`; then `re.sub` of the MULTILINE pattern
"a code-fence opener at a line start, or a newline followed by a closing
fence at a line end" with a newline; then, if a first opening brace and a
last closing brace exist with `last > first`, the slice between them
(inclusive) is returned, else the stripped text.  `fenceSub` scans left to
right exactly like `re.sub`: the first alternative is only tried at a line
start (position 0 or right after a newline of the original text), and
scanning resumes after the matched span. -/

def pyWsChar (c : Char) : Bool :=
  c = ' ' || c = '\t' || c = '\n' || c = '\r' || c = '\x0b' || c = '\x0c'

def pyStrip (cs : List Char) : List Char :=
  ((cs.dropWhile pyWsChar).reverse.dropWhile pyWsChar).reverse

def fenceHead1 (cs : List Char) : Option (List Char) :=
  match cs with
  | a :: b :: c :: rest =>
    if a = backtick && b = backtick && c = backtick then
      match rest.dropWhile isAlphaChar with
      | d :: after => if d = '\n' then some after else none
      | [] => none
    else none
  | _ => none

def fenceHead2 (cs : List Char) : Option (List Char) :=
  match cs with
  | n :: a :: b :: c :: rest =>
    if n = '\n' && a = backtick && b = backtick && c = backtick then
      match rest with
      | [] => some []
      | d :: _ => if d = '\n' then some rest else none
    else none
  | _ => none

def fenceSub : Nat → List Char → Bool → List Char
  | 0, cs, _ => cs
  | _, [], _ => []
  | fuel + 1, cs, atLineStart =>
    match (if atLineStart then fenceHead1 cs else none) with
    | some after => '\n' :: fenceSub fuel after true
    | none =>
      match fenceHead2 cs with
      | some after => '\n' :: fenceSub fuel after false
      | none =>
        match cs with
        | [] => []
        | c :: rest => c :: fenceSub fuel rest (c = '\n')

def lastIdxOf (p : Char → Bool) (cs : List Char) : Option Nat :=
  match (cs.reverse.findIdx? p) with
  | none => none
  | some j => some (cs.length - 1 - j)

def sanitize_json_text (text : String) : String :=
  let t0 := pyStrip text.data
  let t := fenceSub (t0.length + 1) t0 true
  match t.findIdx? (fun c => c = braceOpen), lastIdxOf (fun c => c = braceClose) t with
  | some start, some stop =>
    if start < stop then String.mk ((t.drop start).take (stop - start + 1))
    else String.mk t
  | _, _ => String.mk t

/-! ## Schema validation (`apps/cloud-rag/schemas/energy_efficiency.py`)

`EnergyEfficiencyResponse` is a Pydantic model with `message: str` and
`interactionId: str` required, `type: str` defaulting to the string
`"text"` when the key is absent, and `content: List` defaulting to `[]`.
Note that `type` is a plain `str` field: any string value passes
validation.  Extra keys are ignored (Pydantic's default).  Construction
from a non-object (`EnergyEfficiencyResponse(**data)` where `data` is not a
dict) raises a `TypeError`, which `generate_response` does not catch. -/

structure EnergyEfficiencyResponse where
  message : String
  interactionId : String
  type : String
  content : List Json

def validate_energy_efficiency_response (fields : List (String × Json)) :
    Option EnergyEfficiencyResponse :=
  match dictLookup "message" fields with
  | some (Json.str m) =>
    match dictLookup "interactionId" fields with
    | some (Json.str iid) =>
      let ty? : Option String :=
        match dictLookup "type" fields with
        | none => some "text"
        | some (Json.str t) => some t
        | some _ => none
      let content? : Option (List Json) :=
        match dictLookup "content" fields with
        | none => some []
        | some (Json.arr l) => some l
        | some _ => none
      match ty?, content? with
      | some t, some c => some ⟨m, iid, t, c⟩
      | _, _ => none
    | _ => none
  | _ => none

def eerToJson (r : EnergyEfficiencyResponse) : Json :=
  Json.obj [("message", Json.str r.message),
            ("interactionId", Json.str r.interactionId),
            ("type", Json.str r.type),
            ("content", Json.arr r.content)]

/-! ## `generate_response` (`apps/cloud-rag/rag/chain.py`, lines 440-527)

The tail of `generate_response` after the prompt has been rendered: the LLM
is invoked exactly once, the reply is sanitized and parsed with
`json.loads`, a `JSONDecodeError` is converted to
`ValueError("LLM output was not valid JSON")`, a Pydantic
`ValidationError` to
`ValueError("Output failed EnergyEfficiencyResponse validation")`, and a
validated response is re-serialized with `model_dump_json()`.  The LLM is
an external collaborator, modelled as an oracle list of successive replies;
the second component of the result counts how many replies were consumed
(the source consumes exactly one — there is no retry path). -/

inductive GenError where
  | invalidJson : GenError
  | schemaValidation : GenError
  | typeError : GenError
  deriving DecidableEq

def generate_response (llmReplies : List String) :
    (Except GenError EnergyEfficiencyResponse) × Nat :=
  let text := llmReplies.headD ""
  let res : Except GenError EnergyEfficiencyResponse :=
    match json_loads (sanitize_json_text text) with
    | none => Except.error GenError.invalidJson
    | some (Json.obj fields) =>
      match validate_energy_efficiency_response fields with
      | none => Except.error GenError.schemaValidation
      | some r => Except.ok r
    | some _ => Except.error GenError.typeError
  (res, 1)

theorem validate_type_default {fields : List (String × Json)}
    {r : EnergyEfficiencyResponse}
    (hv : validate_energy_efficiency_response fields = some r)
    (hnone : dictLookup "type" fields = none) : r.type = "text" := by
  unfold validate_energy_efficiency_response at hv
  rw [hnone] at hv
  rcases hm : dictLookup "message" fields with _ | vm <;> rw [hm] at hv
  · cases hv
  · cases vm <;> try cases hv
    case str m =>
      rcases hi : dictLookup "interactionId" fields with _ | vi <;> rw [hi] at hv
      · cases hv
      · cases vi <;> try cases hv
        case str iid =>
          rcases hc : dictLookup "content" fields with _ | vc <;> rw [hc] at hv
          · cases hv; rfl
          · cases vc <;> try cases hv
            case some.arr.refl => rfl

def bananaReply : String :=
  "\x7b\"message\":\"m\",\"interactionId\":\"i\",\"type\":\"banana\",\"content\":[]\x7d"

/-- C1 counterexample: an LLM reply whose `type` field is the string
`"banana"` passes schema validation unchanged, so `generate_response`
returns a response whose `type` is not `"text"`: the schema does not
constrain `type` to equal `"text"`. -/
theorem generate_response_type_not_text :
    (generate_response [bananaReply]).1 = Except.ok ⟨"m", "i", "banana", []⟩
    ∧ ("banana" : String) ≠ "text" := by
  refine ⟨rfl, by decide⟩

/-- C1 (amended): every success result of `generate_response` (hence every
string it returns and every 200 body of the RAG endpoint, which passes it
through) validates the EnergyEfficiencyResponse schema
`{message: str, interactionId: str, type: str, content: list}`, and `type`
equals `"text"` whenever the parsed LLM object omits the `type` key — but
`type` is not constrained to equal `"text"` when the LLM supplies another
string. -/
theorem generate_response_emits_valid_schema (llmReplies : List String)
    (r : EnergyEfficiencyResponse)
    (h : (generate_response llmReplies).1 = Except.ok r) :
    validate_energy_efficiency_response (jsonObjFields (eerToJson r)) = some r
    ∧ (∀ fields,
        json_loads (sanitize_json_text (llmReplies.headD "")) = some (Json.obj fields)
        → dictLookup "type" fields = none → r.type = "text") := by
  constructor
  · rcases r with ⟨m, iid, ty, co⟩
    simp [validate_energy_efficiency_response, jsonObjFields, eerToJson, dictLookup]
  · intro fields hparse hnone
    simp only [generate_response] at h
    rw [hparse] at h
    dsimp only at h
    rcases hv : validate_energy_efficiency_response fields with _ | r'
    · rw [hv] at h; cases h
    · rw [hv] at h
      cases h
      exact validate_type_default hv hnone

def goodReply : String := "\x7b\"message\":\"ok\",\"interactionId\":\"id-1\"\x7d"

/-- C1 witness: the amended claim applied to a concrete minimal LLM reply
that omits `type` and `content`. -/
theorem generate_response_emits_valid_schema_witness :
    validate_energy_efficiency_response
        (jsonObjFields (eerToJson ⟨"ok", "id-1", "text", []⟩))
      = some ⟨"ok", "id-1", "text", []⟩
    ∧ (∀ fields,
        json_loads (sanitize_json_text ([goodReply].headD "")) = some (Json.obj fields)
        → dictLookup "type" fields = none
        → EnergyEfficiencyResponse.type ⟨"ok", "id-1", "text", []⟩ = "text") :=
  generate_response_emits_valid_schema [goodReply] ⟨"ok", "id-1", "text", []⟩ rfl

def trickyReply : String :=
  "Here is the answer: \x7b\"message\": \"Use LED bulbs.\", \"interactionId\": \"i-2\"\x7d Done. \x7d"

def retryReply : String :=
  "\x7b\"message\": \"Use LED bulbs.\", \"interactionId\": \"i-2\"\x7d"

/-- C2 counterexample: on a first reply whose first-brace-to-last-brace
slice is not valid JSON (a balanced-brace extraction would have recovered
it), `generate_response` raises the validation error after exactly one LLM
call even though a second, valid reply was available from the oracle: the
code performs no retry and no balanced-brace extraction. -/
theorem generate_response_no_retry :
    generate_response [trickyReply, retryReply]
      = (Except.error GenError.invalidJson, 1)
    ∧ (generate_response [retryReply]).1
      = Except.ok ⟨"Use LED bulbs.", "i-2", "text", []⟩ :=
  ⟨rfl, rfl⟩

/-- C2 (amended): when the LLM output fails to parse as JSON after stripping
fenced blocks and trimming to the substring between the first opening brace
and the last closing brace, `generate_response` raises the validation error
immediately: exactly one LLM call is made, with no retry and no
balanced-brace extraction. -/
theorem generate_response_fails_without_retry (llmReplies : List String)
    (h : json_loads (sanitize_json_text (llmReplies.headD "")) = none) :
    generate_response llmReplies = (Except.error GenError.invalidJson, 1) := by
  simp only [generate_response, h]

/-- C2 witness: the amended claim applied to a concrete non-JSON reply. -/
theorem generate_response_fails_without_retry_witness :
    generate_response ["I cannot answer."] = (Except.error GenError.invalidJson, 1) :=
  generate_response_fails_without_retry ["I cannot answer."] rfl

/-! ## `_parse_iso` (`apps/edge-server/services/feedback_sync.py`, lines 189-201)

`datetime.fromisoformat` with the strict CPython grammar that the code's
explicit trailing-`Z` workaround targets: date `YYYY-MM-DD`, optionally one
separator character and a time `HH[:MM[:SS[.fff|.ffffff]]]`, optionally an
offset `±HH:MM[:SS[.ffffff]]`.  A parsed datetime is represented by its
microsecond value on the proleptic Gregorian axis plus an awareness flag;
aware values are UTC-normalized by subtracting the offset.  Python compares
naive with naive and aware with aware by these values and raises
`TypeError` on a mixed comparison — `dtGt` returns `none` in that case. -/

structure IsoDT where
  aware : Bool
  val : Int
  deriving DecidableEq

def digitVal (c : Char) : Option Nat :=
  if isDigitChar c then some (c.toNat - 48) else none

def dig2 (a b : Char) : Option Nat :=
  match digitVal a, digitVal b with
  | some x, some y => some (10 * x + y)
  | _, _ => none

def dig3 (a b c : Char) : Option Nat :=
  match dig2 a b, digitVal c with
  | some x, some y => some (10 * x + y)
  | _, _ => none

def dig4 (a b c d : Char) : Option Nat :=
  match dig2 a b, dig2 c d with
  | some x, some y => some (100 * x + y)
  | _, _ => none

def dig6 (a b c d e f : Char) : Option Nat :=
  match dig3 a b c, dig3 d e f with
  | some x, some y => some (1000 * x + y)
  | _, _ => none

def isLeapYear (y : Nat) : Bool := (y % 4 = 0 && y % 100 ≠ 0) || (y % 400 = 0)

def daysInMonth (y m : Nat) : Nat :=
  if m = 2 then (if isLeapYear y then 29 else 28)
  else if m = 4 || m = 6 || m = 9 || m = 11 then 30
  else 31

def daysBeforeMonth (y m : Nat) : Nat :=
  (List.range (m - 1)).foldl (fun a i => a + daysInMonth y (i + 1)) 0

def daysFromCivil (y m d : Nat) : Nat :=
  let py := y - 1
  365 * py + py / 4 - py / 100 + py / 400 + daysBeforeMonth y m + (d - 1)

def parseHMSF (cs : List Char) : Option (Nat × Nat × Nat × Nat) :=
  match cs with
  | [h1, h2] =>
    match dig2 h1 h2 with
    | some h => some (h, 0, 0, 0)
    | none => none
  | [h1, h2, c1, m1, m2] =>
    if c1 = ':' then
      match dig2 h1 h2, dig2 m1 m2 with
      | some h, some m => some (h, m, 0, 0)
      | _, _ => none
    else none
  | [h1, h2, c1, m1, m2, c2, s1, s2] =>
    if c1 = ':' && c2 = ':' then
      match dig2 h1 h2, dig2 m1 m2, dig2 s1 s2 with
      | some h, some m, some s => some (h, m, s, 0)
      | _, _, _ => none
    else none
  | [h1, h2, c1, m1, m2, c2, s1, s2, c3, f1, f2, f3] =>
    if c1 = ':' && c2 = ':' && c3 = '.' then
      match dig2 h1 h2, dig2 m1 m2, dig2 s1 s2, dig3 f1 f2 f3 with
      | some h, some m, some s, some f => some (h, m, s, f * 1000)
      | _, _, _, _ => none
    else none
  | [h1, h2, c1, m1, m2, c2, s1, s2, c3, f1, f2, f3, f4, f5, f6] =>
    if c1 = ':' && c2 = ':' && c3 = '.' then
      match dig2 h1 h2, dig2 m1 m2, dig2 s1 s2, dig6 f1 f2 f3 f4 f5 f6 with
      | some h, some m, some s, some f => some (h, m, s, f)
      | _, _, _, _ => none
    else none
  | _ => none

def timeUs (c : Nat × Nat × Nat × Nat) : Option Nat :=
  if c.1 ≤ 23 && c.2.1 ≤ 59 && c.2.2.1 ≤ 59 then
    some (((c.1 * 60 + c.2.1) * 60 + c.2.2.1) * 1000000 + c.2.2.2)
  else none

def offsetUs (c : Nat × Nat × Nat × Nat) : Nat :=
  ((c.1 * 60 + c.2.1) * 60 + c.2.2.1) * 1000000 + c.2.2.2

def parseIsoDate (cs : List Char) : Option Nat :=
  match cs with
  | [y1, y2, y3, y4, s1, m1, m2, s2, d1, d2] =>
    if s1 = '-' && s2 = '-' then
      match dig4 y1 y2 y3 y4, dig2 m1 m2, dig2 d1 d2 with
      | some y, some mo, some dy =>
        if 1 ≤ y && 1 ≤ mo && mo ≤ 12 && 1 ≤ dy && dy ≤ daysFromCivilGuard y mo dy then
          some (daysFromCivil y mo dy)
        else none
      | _, _, _ => none
    else none
  | _ => none
where daysFromCivilGuard (y mo _ : Nat) : Nat := daysInMonth y mo

def parseIsoTimePart (tcs : List Char) : Option (Bool × Int) :=
  let tzIdx : Option Nat :=
    match tcs.findIdx? (fun c => c = '-') with
    | some i => some i
    | none => tcs.findIdx? (fun c => c = '+')
  match tzIdx with
  | none =>
    match parseHMSF tcs with
    | none => none
    | some comps =>
      match timeUs comps with
      | none => none
      | some us => some (false, (us : Int))
  | some i =>
    let timestr := tcs.take i
    let sign : Int := if tcs.getD i ' ' = '-' then -1 else 1
    let tzstr := tcs.drop (i + 1)
    if tzstr.length = 5 || tzstr.length = 8 || tzstr.length = 15 then
      match parseHMSF timestr, parseHMSF tzstr with
      | some comps, some tzcomps =>
        match timeUs comps with
        | none => none
        | some us =>
          let off := offsetUs tzcomps
          if off < 24 * 3600 * 1000000 then
            some (true, (us : Int) - sign * (off : Int))
          else none
      | _, _ => none
    else none

def parse_iso_raw (s : String) : Option IsoDT :=
  let cs := s.data
  match parseIsoDate (cs.take 10) with
  | none => none
  | some days =>
    match cs.drop 10 with
    | [] => some ⟨false, (days : Int) * 86400000000⟩
    | _sep :: tcs =>
      if tcs = [] then none
      else
        match parseIsoTimePart tcs with
        | none => none
        | some (aware, tval) => some ⟨aware, (days : Int) * 86400000000 + tval⟩

def endsWithZ (ts : String) : Bool :=
  match ts.data.getLast? with
  | some c => c = 'Z'
  | none => false

def parse_iso (ts : String) : Option IsoDT :=
  if ts = "" then none
  else
    match parse_iso_raw ts with
    | some d => some d
    | none =>
      if endsWithZ ts then
        parse_iso_raw (String.mk (ts.data.dropLast ++ "+00:00".data))
      else none

def dtGt (a b : IsoDT) : Option Bool :=
  if a.aware = b.aware then some (decide (b.val < a.val)) else none

/-! ## Component M: Feedback Sync (`apps/edge-server/services/feedback_sync.py`)

`_filter_new` keeps items with `created_at` strictly greater than the
checkpoint; a `None` or unparseable checkpoint keeps everything, and an
item with an unparseable `created_at` is always kept.  A mixed naive/aware
comparison raises `TypeError` (modelled by `Except.error ()`), which
`run_feedback_sync` does not catch.  `run_feedback_sync` reads the
checkpoint, filters, returns zeros without touching the checkpoint when
nothing is new, posts the batch (the HTTP outcome is an explicit argument:
`Except.ok (accepted, duplicates)` for HTTP 200, `Except.error _` for a
timeout or client error, which the function re-raises), and on success
advances the checkpoint to Python's `max(...)` — the lexicographically
largest `created_at` string — of the sent items, provided it is non-empty. -/

def filterNewLoop (checkpoint : IsoDT) : List FeedbackItem → Except Unit (List FeedbackItem)
  | [] => Except.ok []
  | it :: rest =>
    match parse_iso it.created_at with
    | none => (filterNewLoop checkpoint rest).map (fun l => it :: l)
    | some d =>
      match dtGt d checkpoint with
      | none => Except.error ()
      | some true => (filterNewLoop checkpoint rest).map (fun l => it :: l)
      | some false => filterNewLoop checkpoint rest

def filter_new (items : List FeedbackItem) (last_synced_at : Option String) :
    Except Unit (List FeedbackItem) :=
  match last_synced_at with
  | none => Except.ok items
  | some cp =>
    match parse_iso cp with
    | none => Except.ok items
    | some checkpoint => filterNewLoop checkpoint items

structure SyncSummary where
  sent : Nat
  accepted : Nat
  duplicates : Nat
  skipped : Nat
  deriving DecidableEq

inductive SyncFailure where
  | typeError : SyncFailure
  | timeout : SyncFailure
  | clientError : SyncFailure
  deriving DecidableEq

def run_feedback_sync (state : Option String) (items : List FeedbackItem)
    (postResult : Except SyncFailure (Nat × Nat)) :
    (Except SyncFailure SyncSummary) × Option String :=
  match filter_new items state with
  | Except.error _ => (Except.error SyncFailure.typeError, state)
  | Except.ok newItems =>
    let skipped := items.length - newItems.length
    if newItems.isEmpty then (Except.ok ⟨0, 0, 0, skipped⟩, state)
    else
      match postResult with
      | Except.error e => (Except.error e, state)
      | Except.ok (accepted, duplicates) =>
        match pyListMax (newItems.map FeedbackItem.created_at) with
        | some newest =>
          if newest ≠ "" then
            (Except.ok ⟨newItems.length, accepted, duplicates, skipped⟩, some newest)
          else
            (Except.ok ⟨newItems.length, accepted, duplicates, skipped⟩, state)
        | none => (Except.ok ⟨newItems.length, accepted, duplicates, skipped⟩, state)


theorem filterNewLoop_subset (c : IsoDT) :
    ∀ (items out : List FeedbackItem), filterNewLoop c items = Except.ok out →
      ∀ it ∈ out, it ∈ items := by
  intro items
  induction items with
  | nil =>
    intro out h it hit
    cases h
    cases hit
  | cons a rest ih =>
    intro out h it hit
    simp only [filterNewLoop] at h
    split at h
    · rcases hrec : filterNewLoop c rest with e | l <;> rw [hrec] at h
      · cases h
      · simp only [Except.map] at h
        cases h
        rcases List.mem_cons.mp hit with h1 | h1
        · exact List.mem_cons.mpr (Or.inl h1)
        · exact List.mem_cons.mpr (Or.inr (ih l hrec it h1))
    · split at h
      · cases h
      · rcases hrec : filterNewLoop c rest with e | l <;> rw [hrec] at h
        · cases h
        · simp only [Except.map] at h
          cases h
          rcases List.mem_cons.mp hit with h1 | h1
          · exact List.mem_cons.mpr (Or.inl h1)
          · exact List.mem_cons.mpr (Or.inr (ih l hrec it h1))
      · exact List.mem_cons.mpr (Or.inr (ih out h it hit))

theorem filterNewLoop_keeps_unparseable (c : IsoDT) :
    ∀ (items out : List FeedbackItem), filterNewLoop c items = Except.ok out →
      ∀ it ∈ items, parse_iso it.created_at = none → it ∈ out := by
  intro items
  induction items with
  | nil =>
    intro out h it hit
    cases hit
  | cons a rest ih =>
    intro out h it hit hbad
    simp only [filterNewLoop] at h
    split at h
    case _ hp =>
      rcases hrec : filterNewLoop c rest with e | l <;> rw [hrec] at h
      · cases h
      · simp only [Except.map] at h
        cases h
        rcases List.mem_cons.mp hit with h1 | h1
        · exact h1 ▸ List.mem_cons.mpr (Or.inl rfl)
        · exact List.mem_cons.mpr (Or.inr (ih l hrec it h1 hbad))
    case _ d hp =>
      have hne : it ≠ a := by
        intro hcontra
        rw [← hcontra, hbad] at hp
        cases hp
      have h1 : it ∈ rest := by
        rcases List.mem_cons.mp hit with h2 | h2
        · exact absurd h2 hne
        · exact h2
      split at h
      · cases h
      · rcases hrec : filterNewLoop c rest with e | l <;> rw [hrec] at h
        · cases h
        · simp only [Except.map] at h
          cases h
          exact List.mem_cons.mpr (Or.inr (ih l hrec it h1 hbad))
      · exact ih out h it h1 hbad

theorem filterNewLoop_mem_gt (c : IsoDT) :
    ∀ (items out : List FeedbackItem), filterNewLoop c items = Except.ok out →
      ∀ it ∈ out, ∀ d, parse_iso it.created_at = some d → dtGt d c = some true := by
  intro items
  induction items with
  | nil =>
    intro out h it hit
    cases h
    cases hit
  | cons a rest ih =>
    intro out h it hit d hd
    simp only [filterNewLoop] at h
    split at h
    case _ hp =>
      rcases hrec : filterNewLoop c rest with e | l <;> rw [hrec] at h
      · cases h
      · simp only [Except.map] at h
        cases h
        rcases List.mem_cons.mp hit with h1 | h1
        · rw [h1, hp] at hd
          cases hd
        · exact ih l hrec it h1 d hd
    case _ d0 hp =>
      split at h
      case _ hg => cases h
      case _ hg =>
        rcases hrec : filterNewLoop c rest with e | l <;> rw [hrec] at h
        · cases h
        · simp only [Except.map] at h
          cases h
          rcases List.mem_cons.mp hit with h1 | h1
          · rw [h1, hp] at hd
            cases hd
            exact hg
          · exact ih l hrec it h1 d hd
      case _ hg => exact ih out h it hit d hd

theorem filter_new_subset {items out : List FeedbackItem} {cp : Option String}
    (h : filter_new items cp = Except.ok out) : ∀ it ∈ out, it ∈ items := by
  unfold filter_new at h
  split at h
  · cases h
    exact fun it hit => hit
  · split at h
    · cases h
      exact fun it hit => hit
    · exact filterNewLoop_subset _ items out h

/-- C10: in feedback-sync filtering, an item whose `created_at` string fails
ISO-8601 parsing is classified as new regardless of the checkpoint value: it
belongs to every successfully filtered batch (and is thus re-sent on every
sync run, deduplicated only by the cloud store's `feedback_id` key). -/
theorem filter_new_unparseable_included
    (items out : List FeedbackItem) (cp : Option String) (it : FeedbackItem)
    (hmem : it ∈ items) (hbad : parse_iso it.created_at = none)
    (hok : filter_new items cp = Except.ok out) : it ∈ out := by
  unfold filter_new at hok
  split at hok
  · cases hok
    exact hmem
  · split at hok
    · cases hok
      exact hmem
    · exact filterNewLoop_keeps_unparseable _ items out hok it hmem hbad

def garbageItem : FeedbackItem := ⟨"f1", "i1", 1, "positive", "", "not-a-date"⟩

/-- C10 witness: the concrete item with `created_at = "not-a-date"` is kept
by the filter against a parseable checkpoint. -/
theorem filter_new_unparseable_included_witness :
    garbageItem ∈ [garbageItem] :=
  filter_new_unparseable_included [garbageItem] [garbageItem]
    (some "2099-01-01T00:00:00+00:00") garbageItem (by simp) rfl rfl

theorem run_feedback_sync_success_state
    (state : Option String) (items : List FeedbackItem) (acc dup : Nat)
    (newItems : List FeedbackItem)
    (hf : filter_new items state = Except.ok newItems)
    (hnonempty : newItems ≠ [])
    (hne : ∀ it ∈ items, it.created_at ≠ "") :
    (run_feedback_sync state items (Except.ok (acc, dup))).2
      = pyListMax (newItems.map FeedbackItem.created_at) := by
  have hempty : newItems.isEmpty = false := by
    cases newItems
    · exact absurd rfl hnonempty
    · rfl
  simp only [run_feedback_sync, hf, hempty, Bool.false_eq_true, if_false]
  cases hmax : pyListMax (newItems.map FeedbackItem.created_at) with
  | none =>
    cases newItems with
    | nil => exact absurd rfl hnonempty
    | cons a rest => simp [pyListMax, List.map_cons] at hmax
  | some m =>
    have hmem := pyListMax_mem hmax
    obtain ⟨it, hitmem, hiteq⟩ := List.mem_map.mp hmem
    have hm : m ≠ "" := by
      rw [← hiteq]
      exact hne it (filter_new_subset hf it hitmem)
    simp [hm]

/-- C3: after a sync run that posts a non-empty batch and receives HTTP 200,
the checkpoint equals `max(created_at)` (Python's `max` — the
lexicographically largest of the ISO strings) over the sent items; when
there are no new items, or when the post fails with a timeout or error, the
checkpoint is unchanged; and whenever the old and the new checkpoint both
parse as ISO timestamps the checkpoint strictly increases, hence it is
monotonically non-decreasing across successful batches. -/
theorem run_feedback_sync_checkpoint
    (state : Option String) (items : List FeedbackItem)
    (hne : ∀ it ∈ items, it.created_at ≠ "") :
    (∀ newItems acc dup, filter_new items state = Except.ok newItems →
      newItems ≠ [] →
      (run_feedback_sync state items (Except.ok (acc, dup))).2
        = pyListMax (newItems.map FeedbackItem.created_at))
    ∧ (∀ newItems post, filter_new items state = Except.ok newItems →
        newItems = [] → (run_feedback_sync state items post).2 = state)
    ∧ (∀ e, (run_feedback_sync state items (Except.error e)).2 = state)
    ∧ (∀ newItems acc dup cp c newcp newDt,
        filter_new items state = Except.ok newItems → newItems ≠ [] →
        state = some cp → parse_iso cp = some c →
        (run_feedback_sync state items (Except.ok (acc, dup))).2 = some newcp →
        parse_iso newcp = some newDt →
        dtGt newDt c = some true) := by
  refine ⟨?_, ?_, ?_, ?_⟩
  · intro newItems acc dup hf hnonempty
    exact run_feedback_sync_success_state state items acc dup newItems hf hnonempty hne
  · intro newItems post hf hempty
    subst hempty
    simp [run_feedback_sync, hf]
  · intro e
    rcases hfe : filter_new items state with u | ni
    · simp [run_feedback_sync, hfe]
    · rcases ni with _ | ⟨a, rest⟩
      · simp [run_feedback_sync, hfe]
      · simp [run_feedback_sync, hfe]
  · intro newItems acc dup cp c newcp newDt hf hnonempty hstate hc hrun hparse
    rw [run_feedback_sync_success_state state items acc dup newItems hf hnonempty hne]
      at hrun
    have hmem := pyListMax_mem hrun
    obtain ⟨it, hitmem, hiteq⟩ := List.mem_map.mp hmem
    subst hstate
    have hloop : filterNewLoop c items = Except.ok newItems := by
      simp only [filter_new] at hf
      rw [hc] at hf
      exact hf
    exact filterNewLoop_mem_gt c items newItems hloop it hitmem newDt
      (by rw [hiteq]; exact hparse)

def syncDemoItem : FeedbackItem :=
  ⟨"f9", "i9", 1, "positive", "", "2024-06-02T00:00:00+00:00"⟩

/-- C3 witness: the checkpoint-advance equation applied to a concrete state
and a one-item batch acknowledged with HTTP 200. -/
theorem run_feedback_sync_checkpoint_witness :
    (run_feedback_sync (some "2024-06-01T00:00:00+00:00") [syncDemoItem]
        (Except.ok (1, 0))).2
      = pyListMax ([syncDemoItem].map FeedbackItem.created_at) :=
  (run_feedback_sync_checkpoint (some "2024-06-01T00:00:00+00:00") [syncDemoItem]
      (by decide)).1 [syncDemoItem] 1 0 rfl (by decide)

/-! ## Component D helpers: `_normalize_text` and `_sentence_tokenize`
(`apps/cloud-rag/scripts/seed_index.py`)

`_normalize_text` is `re.sub(r"\s+", " ", text).strip()`: every maximal
whitespace run becomes one space and the ends are trimmed — equivalently,
the whitespace-separated tokens joined with single spaces.  `wsTokensAux`
computes those tokens; `joinTokens` joins them.  `_sentence_tokenize`
normalizes and then splits after sentence-final punctuation followed by
whitespace (after normalization, a single space). -/

def wsTokensAux : List Char → List Char → List (List Char)
  | [], acc => if acc = [] then [] else [acc.reverse]
  | c :: cs, acc =>
    if pyWsChar c then
      if acc = [] then wsTokensAux cs []
      else acc.reverse :: wsTokensAux cs []
    else wsTokensAux cs (c :: acc)

def joinTokens : List (List Char) → List Char
  | [] => []
  | [t] => t
  | t :: rest => t ++ ' ' :: joinTokens rest

def normalize_text (s : String) : String :=
  String.mk (joinTokens (wsTokensAux s.data []))

theorem wsTokensAux_props :
    ∀ (cs acc : List Char), (∀ c ∈ acc, pyWsChar c = false) →
      ∀ t ∈ wsTokensAux cs acc, t ≠ [] ∧ ∀ c ∈ t, pyWsChar c = false := by
  intro cs
  induction cs with
  | nil =>
    intro acc hacc t ht
    simp only [wsTokensAux] at ht
    by_cases ha : acc = []
    · simp [ha] at ht
    · simp only [ha, if_neg, not_false_iff, List.mem_singleton] at ht
      subst ht
      refine ⟨by simpa using ha, ?_⟩
      intro c hc
      exact hacc c (List.mem_reverse.mp hc)
  | cons c cs ih =>
    intro acc hacc t ht
    simp only [wsTokensAux] at ht
    by_cases hw : pyWsChar c
    · rw [if_pos hw] at ht
      by_cases ha : acc = []
      · rw [if_pos ha] at ht
        exact ih [] (by simp) t ht
      · rw [if_neg ha] at ht
        rcases List.mem_cons.mp ht with h1 | h1
        · subst h1
          refine ⟨by simpa using ha, ?_⟩
          intro x hx
          exact hacc x (List.mem_reverse.mp hx)
        · exact ih [] (by simp) t h1
    · rw [if_neg hw] at ht
      refine ih (c :: acc) ?_ t ht
      intro x hx
      rcases List.mem_cons.mp hx with h1 | h1
      · subst h1
        exact Bool.eq_false_iff.mpr hw
      · exact hacc x h1

theorem wsTokensAux_append_nonws :
    ∀ (t cs acc : List Char), (∀ c ∈ t, pyWsChar c = false) →
      wsTokensAux (t ++ cs) acc = wsTokensAux cs (t.reverse ++ acc) := by
  intro t
  induction t with
  | nil => intro cs acc _; simp
  | cons c t' ih =>
    intro cs acc ht
    have hc : pyWsChar c = false := ht c (List.mem_cons.mpr (Or.inl rfl))
    simp only [List.cons_append, wsTokensAux, hc, Bool.false_eq_true, if_false,
      List.append_eq]
    rw [ih cs (c :: acc) (fun x hx => ht x (List.mem_cons.mpr (Or.inr hx)))]
    simp

theorem wsTokensAux_joinTokens :
    ∀ tokens : List (List Char),
      (∀ t ∈ tokens, t ≠ [] ∧ ∀ c ∈ t, pyWsChar c = false) →
      wsTokensAux (joinTokens tokens) [] = tokens := by
  intro tokens
  induction tokens with
  | nil => intro _; simp [joinTokens, wsTokensAux]
  | cons t rest ih =>
    intro hprops
    obtain ⟨htne, htws⟩ := hprops t (List.mem_cons.mpr (Or.inl rfl))
    cases rest with
    | nil =>
      show wsTokensAux (joinTokens [t]) [] = [t]
      simp only [joinTokens]
      rw [show (t : List Char) = t ++ [] by simp, wsTokensAux_append_nonws t [] [] htws]
      simp only [wsTokensAux, List.append_nil]
      rw [if_neg (by simpa using htne)]
      simp
    | cons t2 rest2 =>
      show wsTokensAux (t ++ ' ' :: joinTokens (t2 :: rest2)) [] = t :: t2 :: rest2
      rw [wsTokensAux_append_nonws t (' ' :: joinTokens (t2 :: rest2)) [] htws]
      simp only [wsTokensAux, List.append_nil]
      rw [if_pos (by decide)]
      rw [if_neg (by simpa using htne)]
      rw [List.reverse_reverse]
      rw [ih (fun x hx => hprops x (List.mem_cons.mpr (Or.inr hx)))]

theorem normalize_text_idem (s : String) :
    normalize_text (normalize_text s) = normalize_text s := by
  unfold normalize_text
  congr 1
  rw [show (String.mk (joinTokens (wsTokensAux s.data []))).data
      = joinTokens (wsTokensAux s.data []) from rfl]
  rw [wsTokensAux_joinTokens (wsTokensAux s.data [])
    (wsTokensAux_props s.data [] (by simp))]

def splitSentencesAux : List Char → List Char → List (List Char)
  | [], acc => [acc.reverse]
  | c :: cs, acc =>
    if c = ' ' && (match acc with
        | p :: _ => p = '.' || p = '!' || p = '?'
        | [] => false) then
      acc.reverse :: splitSentencesAux cs []
    else splitSentencesAux cs (c :: acc)

def _sentence_tokenize (text : String) : List String :=
  if text = "" then []
  else
    let t := joinTokens (wsTokensAux text.data [])
    if t = [] then []
    else
      (((splitSentencesAux t []).map pyStrip).filter (fun s => s ≠ [])).map String.mk

/-! ## `_chunk_sentences` (`apps/cloud-rag/scripts/seed_index.py`, lines 348-377)

Windows of `size` sentences advancing by `step = max(1, size - overlap)`,
each window joined with single spaces and stripped.  The loop advances by
`step ≥ 1` each iteration so `sentences.length + 1` fuel suffices. -/

def chunkLoop (sentences : List String) (size step : Nat) : Nat → Nat → List String
  | 0, _ => []
  | fuel + 1, i =>
    if i < sentences.length then
      String.mk (pyStrip (joinTokens (((sentences.drop i).take size).map String.data)))
        :: chunkLoop sentences size step fuel (i + step)
    else []

def _chunk_sentences (sentences : List String) (size overlap : Nat) : List String :=
  if size = 0 then
    if sentences.isEmpty then []
    else [String.mk (joinTokens (sentences.map String.data))]
  else chunkLoop sentences size (max 1 (size - overlap)) (sentences.length + 1) 0

def SENT_WINDOW_SIZE : Nat := 10

def SENT_WINDOW_OVERLAP : Nat := 2

/-! ## `_stable_doc_id_from_stem` and `Path(...).stem`

Lowercase the stem (ASCII case model), replace each maximal run of
characters outside `[a-z0-9]` with one underscore (the second
`re.sub(r"_+", "_", ...)` of the source is a no-op after the first sub),
strip underscores at both ends, fall back to `"doc"`. -/

def isLowerAlnum (c : Char) : Bool := ('a' ≤ c && c ≤ 'z') || ('0' ≤ c && c ≤ '9')

def pyLowerChar (c : Char) : Char :=
  if 'A' ≤ c && c ≤ 'Z' then Char.ofNat (c.toNat + 32) else c

def collapseUnderscoreRuns : List Char → List Char
  | [] => []
  | c :: cs =>
    match collapseUnderscoreRuns cs with
    | [] => [c]
    | d :: ds => if c = '_' ∧ d = '_' then d :: ds else c :: d :: ds

def _stable_doc_id_from_stem (stem : String) : String :=
  let s1 := stem.data.map pyLowerChar
  let s2 := collapseUnderscoreRuns
    (s1.map (fun c => if isLowerAlnum c then c else '_'))
  let s3 := ((s2.dropWhile (fun c => c = '_')).reverse.dropWhile
    (fun c => c = '_')).reverse
  if s3 = [] then "doc" else String.mk s3

def pathStem (p : String) : String :=
  let name := (p.data.reverse.takeWhile (fun c => c ≠ '/')).reverse
  match name.reverse.findIdx? (fun c => c = '.') with
  | none => String.mk name
  | some j =>
    let i := name.length - 1 - j
    if 0 < i ∧ i < name.length - 1 then String.mk (name.take i)
    else String.mk name

/-! ## SHA-256 (`hashlib.sha256(...).hexdigest()`)

A complete executable SHA-256 over the UTF-8 bytes of the text, with 32-bit
words as `Nat` reduced mod `2^32`. -/

def utf8Bytes (c : Char) : List Nat :=
  let n := c.toNat
  if n < 128 then [n]
  else if n < 2048 then [192 + n / 64, 128 + n % 64]
  else if n < 65536 then [224 + n / 4096, 128 + (n / 64) % 64, 128 + n % 64]
  else [240 + n / 262144, 128 + (n / 4096) % 64, 128 + (n / 64) % 64, 128 + n % 64]

def strUtf8 (s : String) : List Nat := (s.data.map utf8Bytes).flatten

def w32 (n : Nat) : Nat := n % 4294967296

def rotr32 (n k : Nat) : Nat := w32 (n / 2 ^ k + n % 2 ^ k * 2 ^ (32 - k))

def xor32 (a b : Nat) : Nat := Nat.xor a b

def and32 (a b : Nat) : Nat := Nat.land a b

def not32 (a : Nat) : Nat := Nat.xor a 4294967295

def sha256K : List Nat :=
  [1116352408, 1899447441, 3049323471, 3921009573, 961987163,
   1508970993, 2453635748, 2870763221, 3624381080, 310598401,
   607225278, 1426881987, 1925078388, 2162078206, 2614888103,
   3248222580, 3835390401, 4022224774, 264347078, 604807628,
   770255983, 1249150122, 1555081692, 1996064986, 2554220882,
   2821834349, 2952996808, 3210313671, 3336571891, 3584528711,
   113926993, 338241895, 666307205, 773529912, 1294757372,
   1396182291, 1695183700, 1986661051, 2177026350, 2456956037,
   2730485921, 2820302411, 3259730800, 3345764771, 3516065817,
   3600352804, 4094571909, 275423344, 430227734, 506948616,
   659060556, 883997877, 958139571, 1322822218, 1537002063,
   1747873779, 1955562222, 2024104815, 2227730452, 2361852424,
   2428436474, 2756734187, 3204031479, 3329325298]

def sha256H0 : List Nat :=
  [1779033703, 3144134277, 1013904242, 2773480762,
   1359893119, 2600822924, 528734635, 1541459225]

def sha256Pad (msg : List Nat) : List Nat :=
  let L := msg.length
  let k := (119 - L % 64) % 64
  msg ++ 128 :: List.replicate k 0
    ++ (List.range 8).reverse.map (fun i => (L * 8) / 256 ^ i % 256)

def bytesToWords : List Nat → List Nat
  | b0 :: b1 :: b2 :: b3 :: rest =>
    (((b0 * 256 + b1) * 256 + b2) * 256 + b3) :: bytesToWords rest
  | _ => []

def chunksOf64 : Nat → List Nat → List (List Nat)
  | 0, _ => []
  | _, [] => []
  | fuel + 1, l => l.take 64 :: chunksOf64 fuel (l.drop 64)

def scheduleStep (w : List Nat) (_ : Nat) : List Nat :=
  let n := w.length
  let x15 := w.getD (n - 15) 0
  let x2 := w.getD (n - 2) 0
  let s0 := xor32 (xor32 (rotr32 x15 7) (rotr32 x15 18)) (x15 / 8)
  let s1 := xor32 (xor32 (rotr32 x2 17) (rotr32 x2 19)) (x2 / 1024)
  w ++ [w32 (w.getD (n - 16) 0 + s0 + w.getD (n - 7) 0 + s1)]

def sha256Compress (hs : List Nat) (block : List Nat) : List Nat :=
  let ws := (List.range 48).foldl scheduleStep (bytesToWords block)
  let final := (ws.zip sha256K).foldl
    (fun (st : List Nat) (wk : Nat × Nat) =>
      match st with
      | [a, b, c, d, e, f, g, h0] =>
        let s1 := xor32 (xor32 (rotr32 e 6) (rotr32 e 11)) (rotr32 e 25)
        let ch := xor32 (and32 e f) (and32 (not32 e) g)
        let temp1 := w32 (h0 + s1 + ch + wk.2 + wk.1)
        let s0 := xor32 (xor32 (rotr32 a 2) (rotr32 a 13)) (rotr32 a 22)
        let maj := xor32 (xor32 (and32 a b) (and32 a c)) (and32 b c)
        let temp2 := w32 (s0 + maj)
        [w32 (temp1 + temp2), a, b, c, w32 (d + temp1), e, f, g]
      | _ => st) hs
  (hs.zip final).map (fun p => w32 (p.1 + p.2))

def hexDigitChar (n : Nat) : Char :=
  if n < 10 then Char.ofNat (48 + n) else Char.ofNat (87 + n)

def word2hex (n : Nat) : List Char :=
  (List.range 8).reverse.map (fun i => hexDigitChar (n / 16 ^ i % 16))

def sha256_hex (s : String) : String :=
  let padded := sha256Pad (strUtf8 s)
  let blocks := chunksOf64 (padded.length + 1) padded
  let hs := blocks.foldl sha256Compress sha256H0
  String.mk ((hs.map word2hex).flatten)

/-! ## `_build_unified_chunks_for_files` (`apps/cloud-rag/scripts/seed_index.py`,
lines 568-635)

The loaders (`_load_document_content`) are external I/O: a PDF yields one
record **per page** (all sharing the file's `source_path`), a text or
markdown file yields a single record.  The records are the explicit input
here.  For each record the code computes the `doc_id` from the filename
stem and then restarts `chunk_index` at 0 — which is the point claim C4
exercises.  `datetime.now()` is passed in as `now`. -/

structure DocRecord where
  content : String
  source_path : String
  source_type : String
  page : Option Int
  heading_path : List String
  deriving DecidableEq

structure ChunkRecord where
  id : String
  doc_id : String
  source_path : String
  source_type : String
  page : Option Int
  heading_path : List String
  text : String
  created_at : String
  hash : String
  deriving DecidableEq

def appendChunk (rec : DocRecord) (doc_id now : String)
    (st : Nat × List ChunkRecord) (window : String) : Nat × List ChunkRecord :=
  let text_norm := normalize_text window
  if text_norm = "" then st
  else
    let chunk_id := doc_id ++ "#" ++ toString st.1
    (st.1 + 1, st.2 ++ [⟨chunk_id, doc_id, rec.source_path, rec.source_type,
      rec.page, rec.heading_path, text_norm, now, sha256_hex text_norm⟩])

def chunksOfRecord (rec : DocRecord) (now : String) : List ChunkRecord :=
  if pyStrip rec.content.data = [] then []
  else
    let doc_id := _stable_doc_id_from_stem (pathStem rec.source_path)
    let sentences := _sentence_tokenize rec.content
    let windows := _chunk_sentences sentences SENT_WINDOW_SIZE SENT_WINDOW_OVERLAP
    (windows.foldl (appendChunk rec doc_id now) (0, [])).2

def _build_unified_chunks_for_files (all_documents : List DocRecord) (now : String) :
    List ChunkRecord :=
  all_documents.foldl (fun acc rec => acc ++ chunksOfRecord rec now) []

theorem appendChunk_foldl_props (rec : DocRecord) (doc_id now : String)
    (windows : List String) :
    ∀ st : Nat × List ChunkRecord,
      (∀ c ∈ st.2, c.hash = sha256_hex c.text ∧ c.text = normalize_text c.text) →
      ∀ c ∈ (windows.foldl (appendChunk rec doc_id now) st).2,
        c.hash = sha256_hex c.text ∧ c.text = normalize_text c.text := by
  induction windows with
  | nil =>
    intro st hst c hc
    exact hst c hc
  | cons w rest ih =>
    intro st hst c hc
    simp only [List.foldl_cons] at hc
    refine ih _ ?_ c hc
    intro c' hc'
    simp only [appendChunk] at hc'
    by_cases hnorm : normalize_text w = ""
    · rw [if_pos hnorm] at hc'
      exact hst c' hc'
    · rw [if_neg hnorm] at hc'
      rcases List.mem_append.mp hc' with h1 | h1
      · exact hst c' h1
      · rw [List.mem_singleton] at h1
        subst h1
        exact ⟨rfl, (normalize_text_idem w).symm⟩

theorem chunksOfRecord_props (rec : DocRecord) (now : String) :
    ∀ c ∈ chunksOfRecord rec now,
      c.hash = sha256_hex c.text ∧ c.text = normalize_text c.text := by
  intro c hc
  simp only [chunksOfRecord] at hc
  by_cases hstrip : pyStrip rec.content.data = []
  · rw [if_pos hstrip] at hc
    cases hc
  · rw [if_neg hstrip] at hc
    exact appendChunk_foldl_props rec _ now _ (0, []) (by simp) c hc

theorem build_chunks_props (all_documents : List DocRecord) (now : String) :
    ∀ c ∈ _build_unified_chunks_for_files all_documents now,
      c.hash = sha256_hex c.text ∧ c.text = normalize_text c.text := by
  have gen : ∀ (docs : List DocRecord) (acc : List ChunkRecord),
      (∀ c ∈ acc, c.hash = sha256_hex c.text ∧ c.text = normalize_text c.text) →
      ∀ c ∈ docs.foldl (fun acc rec => acc ++ chunksOfRecord rec now) acc,
        c.hash = sha256_hex c.text ∧ c.text = normalize_text c.text := by
    intro docs
    induction docs with
    | nil => intro acc hacc c hc; exact hacc c hc
    | cons r rest ih =>
      intro acc hacc c hc
      simp only [List.foldl_cons] at hc
      refine ih _ ?_ c hc
      intro c' hc'
      rcases List.mem_append.mp hc' with h1 | h1
      · exact hacc c' h1
      · exact chunksOfRecord_props r now c' h1
  exact gen all_documents [] (by simp)

def pdfPageOne : DocRecord :=
  ⟨"First page sentence.", "rag/data/seed/guide.pdf", "pdf", some 0, []⟩

def pdfPageTwo : DocRecord :=
  ⟨"Second page sentence.", "rag/data/seed/guide.pdf", "pdf", some 1, []⟩

/-- C4: every emitted chunk satisfies `hash = SHA-256(text)` and
`text = normalize(text)` (third conjunct, proved in general), but chunk ids
are **not** unique for multi-page sources: `chunk_index` restarts at 0 for
every page record of the same file, so a two-page PDF named `guide.pdf`
emits two chunks that both carry the id `guide#0` — the claimed uniqueness
of `id` fails on the code. -/
theorem build_unified_chunks_duplicate_id :
    ((_build_unified_chunks_for_files [pdfPageOne, pdfPageTwo]
        "2024-01-01T00:00:00+00:00").map ChunkRecord.id = ["guide#0", "guide#0"])
    ∧ ¬ ((_build_unified_chunks_for_files [pdfPageOne, pdfPageTwo]
        "2024-01-01T00:00:00+00:00").map ChunkRecord.id).Nodup
    ∧ (∀ (all_documents : List DocRecord) (now : String),
        ∀ c ∈ _build_unified_chunks_for_files all_documents now,
          c.hash = sha256_hex c.text ∧ c.text = normalize_text c.text) := by
  refine ⟨rfl, ?_, ?_⟩
  · rw [show (_build_unified_chunks_for_files [pdfPageOne, pdfPageTwo]
        "2024-01-01T00:00:00+00:00").map ChunkRecord.id
      = ["guide#0", "guide#0"] from rfl]
    decide
  · exact build_chunks_props

def txtRecordDemo : DocRecord :=
  ⟨"Turn off lights.", "rag/data/seed/tips.txt", "txt", none, []⟩

def chunkDemo : ChunkRecord :=
  ⟨"tips#0", "tips", "rag/data/seed/tips.txt", "txt", none, [],
    "Turn off lights.", "t0", sha256_hex "Turn off lights."⟩

/-- C4 witness: the hash and normalization invariants applied to the
concrete chunk produced from a one-sentence text file. -/
theorem build_unified_chunks_duplicate_id_witness :
    chunkDemo.hash = sha256_hex chunkDemo.text
    ∧ chunkDemo.text = normalize_text chunkDemo.text :=
  build_unified_chunks_duplicate_id.2.2 [txtRecordDemo] "t0" chunkDemo
    (by rw [show _build_unified_chunks_for_files [txtRecordDemo] "t0"
          = [chunkDemo] from rfl]
        exact List.mem_singleton.mpr rfl)

/-! ## `_update_manifest` (`apps/cloud-rag/scripts/seed_index.py`, lines 841-923)

The manifest `files` mapping is a Python dict (modelled with `dictInsert`,
`dictRemove`, `dictLookup`).  The function removes the deleted entries,
counts the new chunks per `source_path`, and writes a fresh entry for
**every** changed file — `chunks_per_file.get(str(file_path), 0)` defaults
to 0, so a file whose loader raised (and therefore contributed no chunks)
still gets its entry rewritten with the new `content_hash` and
`chunks_count = 0`.  File hashing (`_compute_file_hash`) is filesystem I/O,
so each changed file carries its freshly computed hash. -/

structure ManifestEntry where
  doc_id : String
  content_hash : String
  chunks_count : Nat
  updated_at : String
  deriving DecidableEq

structure ManifestModel where
  config_fingerprint : String
  files : List (String × ManifestEntry)
  deriving DecidableEq

structure ChangedFile where
  rel_path : String
  path_str : String
  stem : String
  content_hash : String
  deriving DecidableEq

def countChunksForPath (new_chunks : List ChunkRecord) (p : String) : Nat :=
  (new_chunks.filter (fun c => c.source_path = p)).length

def changedEntry (f : ChangedFile) (new_chunks : List ChunkRecord)
    (now : String) : ManifestEntry :=
  ⟨_stable_doc_id_from_stem f.stem, f.content_hash,
    countChunksForPath new_chunks f.path_str, now⟩

def _update_manifest (manifest : ManifestModel) (current_fp : String)
    (changed_files : List ChangedFile) (deleted_files : List String)
    (new_chunks : List ChunkRecord) (now : String) : ManifestModel :=
  let files1 := deleted_files.foldl (fun fs d => dictRemove d fs) manifest.files
  let files2 := changed_files.foldl
    (fun fs f => dictInsert f.rel_path (changedEntry f new_chunks now) fs) files1
  ⟨current_fp, files2⟩

theorem dictLookup_dictInsert_self {α : Type} (k : String) (v : α) :
    ∀ l : List (String × α), dictLookup k (dictInsert k v l) = some v := by
  intro l
  induction l with
  | nil => simp [dictInsert, dictLookup]
  | cons p rest ih =>
    simp only [dictInsert]
    by_cases h : p.1 = k
    · simp [h, dictLookup]
    · simp only [h, if_neg, not_false_iff, dictLookup]
      exact ih

theorem dictLookup_dictInsert_other {α : Type} {k k' : String} (hne : k' ≠ k)
    (v : α) : ∀ l : List (String × α),
      dictLookup k' (dictInsert k v l) = dictLookup k' l := by
  intro l
  induction l with
  | nil =>
    simp only [dictInsert, dictLookup]
    rw [if_neg (fun h : k = k' => hne h.symm)]
  | cons p rest ih =>
    simp only [dictInsert]
    by_cases h : p.1 = k
    · rw [if_pos h]
      simp only [dictLookup]
      rw [if_neg (fun hk : k = k' => hne hk.symm),
          if_neg (fun hk : p.1 = k' => hne (hk.symm.trans h))]
    · rw [if_neg h]
      simp only [dictLookup]
      by_cases h2 : p.1 = k'
      · rw [if_pos h2, if_pos h2]
      · rw [if_neg h2, if_neg h2]
        exact ih

theorem dictLookup_dictRemove_other {α : Type} {k k' : String} (hne : k' ≠ k) :
    ∀ l : List (String × α), dictLookup k' (dictRemove k l) = dictLookup k' l := by
  intro l
  induction l with
  | nil => rfl
  | cons p rest ih =>
    simp only [dictRemove]
    by_cases h : p.1 = k
    · rw [if_pos h]
      simp only [dictLookup]
      rw [if_neg (fun hk : p.1 = k' => hne (hk.symm.trans h))]
    · rw [if_neg h]
      simp only [dictLookup]
      by_cases h2 : p.1 = k'
      · rw [if_pos h2, if_pos h2]
      · rw [if_neg h2, if_neg h2]
        exact ih

theorem lookup_foldl_remove_of_not_mem {α : Type} (rel : String) :
    ∀ (ds : List String) (fs : List (String × α)), rel ∉ ds →
      dictLookup rel (ds.foldl (fun fs d => dictRemove d fs) fs)
        = dictLookup rel fs := by
  intro ds
  induction ds with
  | nil => intro fs _; rfl
  | cons d rest ih =>
    intro fs hnot
    simp only [List.foldl_cons]
    rw [ih (dictRemove d fs) (fun h => hnot (List.mem_cons.mpr (Or.inr h)))]
    exact dictLookup_dictRemove_other
      (fun h => hnot (List.mem_cons.mpr (Or.inl h))) fs

theorem lookup_foldl_insert_of_not_mem (rel : String)
    (new_chunks : List ChunkRecord) (now : String) :
    ∀ (l : List ChangedFile) (fs : List (String × ManifestEntry)),
      rel ∉ l.map ChangedFile.rel_path →
      dictLookup rel (l.foldl
        (fun fs f => dictInsert f.rel_path (changedEntry f new_chunks now) fs) fs)
        = dictLookup rel fs := by
  intro l
  induction l with
  | nil => intro fs _; rfl
  | cons f rest ih =>
    intro fs hnot
    simp only [List.foldl_cons]
    rw [ih _ (fun h => hnot (by simp only [List.map_cons, List.mem_cons]; exact Or.inr h))]
    exact dictLookup_dictInsert_other
      (fun h => hnot (by simp only [List.map_cons, List.mem_cons]; exact Or.inl h)) _ fs

theorem lookup_foldl_insert_mem (new_chunks : List ChunkRecord) (now : String) :
    ∀ (l : List ChangedFile) (fs : List (String × ManifestEntry)) (f : ChangedFile),
      f ∈ l → (l.map ChangedFile.rel_path).Nodup →
      dictLookup f.rel_path (l.foldl
        (fun fs g => dictInsert g.rel_path (changedEntry g new_chunks now) fs) fs)
        = some (changedEntry f new_chunks now) := by
  intro l
  induction l with
  | nil =>
    intro fs f hmem
    cases hmem
  | cons g rest ih =>
    intro fs f hmem hnodup
    simp only [List.map_cons, List.nodup_cons] at hnodup
    rcases List.mem_cons.mp hmem with h1 | h1
    · subst h1
      simp only [List.foldl_cons]
      rw [lookup_foldl_insert_of_not_mem f.rel_path new_chunks now rest _ hnodup.1]
      exact dictLookup_dictInsert_self f.rel_path _ fs
    · simp only [List.foldl_cons]
      exact ih _ f h1 hnodup.2

/-- C8 counterexample: a changed file whose loader raised contributes no
chunks, yet its manifest entry **is** rewritten — with the new
`content_hash` and `chunks_count = 0` — so the entry does not stay
untouched as the claim states. -/
theorem update_manifest_rewrites_failed_file :
    dictLookup "rag/data/seed/a.pdf"
      (_update_manifest ⟨"fp", [("rag/data/seed/a.pdf", ⟨"a", "h_old", 5, "t0"⟩)]⟩
        "fp" [⟨"rag/data/seed/a.pdf", "/app/apps/cloud-rag/rag/data/seed/a.pdf",
          "a", "h_new"⟩] [] [] "t1").files
      = some ⟨"a", "h_new", 0, "t1"⟩
    ∧ (⟨"a", "h_new", 0, "t1"⟩ : ManifestEntry) ≠ ⟨"a", "h_old", 5, "t0"⟩ := by
  exact ⟨rfl, by decide⟩

/-- C8 (amended): `_update_manifest` rewrites the manifest entry of **every**
changed file — including a file whose loader raised, which is recorded with
its new `content_hash` and `chunks_count = 0` (so it will not be retried on
the next run); entries of files that are neither changed nor deleted are
left unchanged. -/
theorem update_manifest_frame
    (manifest : ManifestModel) (current_fp : String)
    (changed_files : List ChangedFile) (deleted_files : List String)
    (new_chunks : List ChunkRecord) (now : String)
    (hnodup : (changed_files.map ChangedFile.rel_path).Nodup) :
    (∀ f ∈ changed_files,
      dictLookup f.rel_path
        (_update_manifest manifest current_fp changed_files deleted_files
          new_chunks now).files
        = some ⟨_stable_doc_id_from_stem f.stem, f.content_hash,
            countChunksForPath new_chunks f.path_str, now⟩)
    ∧ (∀ rel, rel ∉ changed_files.map ChangedFile.rel_path →
        rel ∉ deleted_files →
        dictLookup rel
          (_update_manifest manifest current_fp changed_files deleted_files
            new_chunks now).files
          = dictLookup rel manifest.files) := by
  constructor
  · intro f hf
    exact lookup_foldl_insert_mem new_chunks now changed_files _ f hf hnodup
  · intro rel hnc hnd
    simp only [_update_manifest]
    rw [lookup_foldl_insert_of_not_mem rel new_chunks now changed_files _ hnc]
    exact lookup_foldl_remove_of_not_mem rel deleted_files manifest.files hnd

/-- C8 witness: the frame property applied to a concrete manifest holding a
changed file, an untouched file, and a deleted file. -/
theorem update_manifest_frame_witness :
    dictLookup "rag/data/seed/b.txt"
      (_update_manifest
        ⟨"fp", [("rag/data/seed/a.pdf", ⟨"a", "h_old", 5, "t0"⟩),
                ("rag/data/seed/b.txt", ⟨"b", "hb", 2, "t0"⟩),
                ("rag/data/seed/c.md", ⟨"c", "hc", 1, "t0"⟩)]⟩
        "fp" [⟨"rag/data/seed/a.pdf", "/x/a.pdf", "a", "h_new"⟩]
        ["rag/data/seed/c.md"] [] "t1").files
      = dictLookup "rag/data/seed/b.txt"
          [("rag/data/seed/a.pdf", (⟨"a", "h_old", 5, "t0"⟩ : ManifestEntry)),
           ("rag/data/seed/b.txt", ⟨"b", "hb", 2, "t0"⟩),
           ("rag/data/seed/c.md", ⟨"c", "hc", 1, "t0"⟩)] :=
  (update_manifest_frame
      ⟨"fp", [("rag/data/seed/a.pdf", ⟨"a", "h_old", 5, "t0"⟩),
              ("rag/data/seed/b.txt", ⟨"b", "hb", 2, "t0"⟩),
              ("rag/data/seed/c.md", ⟨"c", "hc", 1, "t0"⟩)]⟩
      "fp" [⟨"rag/data/seed/a.pdf", "/x/a.pdf", "a", "h_new"⟩]
      ["rag/data/seed/c.md"] [] "t1" (by decide)).2
    "rag/data/seed/b.txt" (by decide) (by decide)

/-! ## `get_stable_doc_id` (`apps/cloud-rag/rag/chain.py`, lines 1050-1071)

The source computes
`str(metadata.get("sourceId")) or str(metadata.get("source")) or
 str(metadata.get("doc_id")) or f"idx_{fallback_index}"`.
Python's `str(None)` is the non-empty — hence truthy — string `"None"`, so
when a key is missing the `or`-chain stops there instead of falling
through.  Metadata values are modelled as strings (they are strings in this
system; `str(...)` of another value only changes the rendered text). -/

def pyStrOfOpt (v : Option String) : String :=
  match v with
  | none => "None"
  | some s => s

def pyOrStr (a b : String) : String := if a ≠ "" then a else b

def get_stable_doc_id (metadata : List (String × String)) (fallback_index : Nat) :
    String :=
  pyOrStr (pyStrOfOpt (dictLookup "sourceId" metadata))
    (pyOrStr (pyStrOfOpt (dictLookup "source" metadata))
      (pyOrStr (pyStrOfOpt (dictLookup "doc_id" metadata))
        ("idx_" ++ toString fallback_index)))

/-- C6: `get_stable_doc_id` uses `metadata["sourceId"]` when present, but
when `sourceId` is missing it does **not** fall back to `source`, `doc_id`
or `idx_i`: `str(None)` is the truthy string `"None"`, so every document
without a `sourceId` key receives the id `"None"` (they all collide). -/
theorem get_stable_doc_id_none_bug :
    get_stable_doc_id [("sourceId", "tipsa#0")] 0 = "tipsa#0"
    ∧ get_stable_doc_id [("source", "a_md")] 0 = "None"
    ∧ get_stable_doc_id [("source", "a_md")] 0 ≠ "a_md"
    ∧ get_stable_doc_id [("doc_id", "tipsb")] 1 = "None"
    ∧ get_stable_doc_id [] 3 = "None"
    ∧ get_stable_doc_id [] 3 ≠ "idx_3" := by
  refine ⟨rfl, rfl, by decide, rfl, rfl, by decide⟩

/-! ## `weighted_fuse_by_rank` (`apps/cloud-rag/rag/chain.py`, lines 820-871)

Documents are represented by their stable ids (`get_stable_doc_id` is
applied upstream).  The two rank dicts are built exactly like the Python
loops (`for rank, (doc, _score) in enumerate(...)`: ascending rank, later
assignment overwrites).  `all_ids = set(semantic) | set(keyword)` iterates
in an unspecified order, so the enumeration of the union is an explicit
argument `setOrder`, constrained in the theorems to enumerate the union
without duplicates; `unionOrder` is one concrete such enumeration.  Scores
are exact rationals; `fused.sort(key=..., reverse=True)` is the stable
descending sort `pySortDescBy`, and the function returns the top
`final_k`. -/

def rankMapFrom (n : Nat) : List String → List (String × Nat) → List (String × Nat)
  | [], d => d
  | i :: rest, d => rankMapFrom (n + 1) rest (dictInsert i n d)

def rankNorm (l : List String) (i : String) : ℚ :=
  match dictLookup i (rankMapFrom 0 l []) with
  | some r => 1 / ((r : ℚ) + 1)
  | none => 0

def fusedScore (semantic keyword : List String) (alpha : ℚ) (i : String) : ℚ :=
  alpha * rankNorm semantic i + (1 - alpha) * rankNorm keyword i

def weighted_fuse_by_rank (semantic keyword : List String) (alpha : ℚ)
    (final_k : Nat) (setOrder : List String) : List (String × ℚ) :=
  (pySortDescBy Prod.snd
    (setOrder.map (fun i => (i, fusedScore semantic keyword alpha i)))).take final_k

def unionOrder (semantic keyword : List String) : List String :=
  (semantic ++ keyword).dedup

theorem rankMapFrom_lookup (i : String) :
    ∀ (l : List String) (n : Nat) (d : List (String × Nat)), l.Nodup →
      dictLookup i (rankMapFrom n l d)
        = if i ∈ l then some (n + l.indexOf i) else dictLookup i d := by
  intro l
  induction l with
  | nil =>
    intro n d _
    simp [rankMapFrom]
  | cons a rest ih =>
    intro n d hnodup
    simp only [rankMapFrom]
    rw [ih (n + 1) _ (List.nodup_cons.mp hnodup).2]
    by_cases hia : i = a
    · subst hia
      have hni : i ∉ rest := (List.nodup_cons.mp hnodup).1
      rw [if_neg hni, dictLookup_dictInsert_self,
        if_pos (List.mem_cons.mpr (Or.inl rfl)), List.indexOf_cons_self]
      simp
    · by_cases hmem : i ∈ rest
      · rw [if_pos hmem, if_pos (List.mem_cons.mpr (Or.inr hmem)),
          List.indexOf_cons_ne rest (fun h => hia h.symm)]
        congr 1
        omega
      · rw [if_neg hmem,
          if_neg (by
            intro h
            rcases List.mem_cons.mp h with h1 | h1
            · exact hia h1
            · exact hmem h1)]
        exact dictLookup_dictInsert_other hia n d

theorem rankNorm_of_mem {l : List String} {i : String} (hl : l.Nodup) (h : i ∈ l) :
    rankNorm l i = 1 / ((l.indexOf i : ℚ) + 1) := by
  unfold rankNorm
  rw [rankMapFrom_lookup i l 0 [] hl, if_pos h]
  simp

theorem rankNorm_of_not_mem {l : List String} {i : String} (hl : l.Nodup)
    (h : i ∉ l) : rankNorm l i = 0 := by
  unfold rankNorm
  rw [rankMapFrom_lookup i l 0 [] hl, if_neg h]
  rfl

theorem rankNorm_pos {l : List String} {i : String} (hl : l.Nodup) (h : i ∈ l) :
    0 < rankNorm l i := by
  rw [rankNorm_of_mem hl h]
  positivity

theorem sorted_pos_split :
    ∀ s : List (String × ℚ),
      List.Pairwise (fun a b : String × ℚ => b.2 ≤ a.2) s →
      (∀ p ∈ s, 0 < p.2 ∨ p.2 = 0) →
      ∃ P Z, s = P ++ Z ∧ (∀ p ∈ P, 0 < p.2) ∧ (∀ p ∈ Z, p.2 = 0) := by
  intro s
  induction s with
  | nil =>
    intro _ _
    exact ⟨[], [], rfl, by simp, by simp⟩
  | cons p rest ih =>
    intro hsort hdichot
    have hrest := (List.pairwise_cons.mp hsort).2
    have hle := (List.pairwise_cons.mp hsort).1
    rcases hdichot p (List.mem_cons.mpr (Or.inl rfl)) with hpos | hzero
    · obtain ⟨P, Z, hsplit, hP, hZ⟩ := ih hrest
        (fun q hq => hdichot q (List.mem_cons.mpr (Or.inr hq)))
      refine ⟨p :: P, Z, by rw [hsplit, List.cons_append], ?_, hZ⟩
      intro q hq
      rcases List.mem_cons.mp hq with h1 | h1
      · subst h1; exact hpos
      · exact hP q h1
    · refine ⟨[], p :: rest, rfl, by simp, ?_⟩
      intro q hq
      rcases List.mem_cons.mp hq with h1 | h1
      · subst h1; exact hzero
      · rcases hdichot q (List.mem_cons.mpr (Or.inr h1)) with h2 | h2
        · exact absurd (lt_of_lt_of_le h2 (hzero ▸ hle q h1)) (lt_irrefl 0)
        · exact h2

theorem filter_map_fst (q : String → Bool) :
    ∀ s : List (String × ℚ),
      (s.map Prod.fst).filter q = (s.filter (fun p => q p.1)).map Prod.fst := by
  intro s
  induction s with
  | nil => rfl
  | cons p rest ih =>
    simp only [List.map_cons, List.filter_cons]
    by_cases h : q p.1 <;> simp [h, ih]

theorem strict_sorted_of_rank (L : List String) (σ : String → ℚ) (hL : L.Nodup)
    (hdef : ∀ i ∈ L, σ i = 1 / ((L.indexOf i : ℚ) + 1)) :
    List.Pairwise (fun x y => σ y < σ x) L := by
  have hidx : ∀ i : Fin L.length, L.indexOf (L.get i) = i.1 := by
    intro i
    have hmem : L.get i ∈ L := L.get_mem i.1 i.2
    have h1 : L.get ⟨L.indexOf (L.get i), List.indexOf_lt_length.2 hmem⟩ = L.get i :=
      List.indexOf_get _
    exact congrArg Fin.val (hL.get_inj_iff.mp h1)
  rw [List.pairwise_iff_get]
  intro i j hij
  have hmi : L.get i ∈ L := L.get_mem i.1 i.2
  have hmj : L.get j ∈ L := L.get_mem j.1 j.2
  rw [hdef _ hmi, hdef _ hmj]
  rw [hidx i, hidx j]
  have : (i.1 : ℚ) + 1 < (j.1 : ℚ) + 1 := by
    have : (i.1 : ℚ) < j.1 := by exact_mod_cast hij
    linarith
  exact one_div_lt_one_div_of_lt (by positivity) this

theorem fuse_restrict_general
    (L setOrder : List String) (σ : String → ℚ) (k : Nat)
    (hL : L.Nodup) (ho : setOrder.Nodup)
    (hsub : ∀ i ∈ L, i ∈ setOrder)
    (hposdef : ∀ i ∈ L, σ i = 1 / ((L.indexOf i : ℚ) + 1))
    (hzero : ∀ i, i ∉ L → σ i = 0) :
    (((pySortDescBy Prod.snd (setOrder.map (fun i => (i, σ i)))).take k).map
      Prod.fst).filter (fun i => decide (i ∈ L)) = L.take k := by
  have hperm : List.Perm (pySortDescBy Prod.snd (setOrder.map (fun i => (i, σ i))))
      (setOrder.map (fun i => (i, σ i))) := pySortDescBy_perm _ _
  have hsorted := pySortDescBy_sorted Prod.snd (setOrder.map (fun i => (i, σ i)))
  set s := pySortDescBy Prod.snd (setOrder.map (fun i => (i, σ i))) with hsdef
  have hshape : ∀ p ∈ s, p.1 ∈ setOrder ∧ p.2 = σ p.1 := by
    intro p hp
    obtain ⟨i, hi, hieq⟩ := List.mem_map.mp (hperm.mem_iff.mp hp)
    constructor
    · rw [← hieq]
      exact hi
    · rw [← hieq]
  have hLpos : ∀ p ∈ s, (p.1 ∈ L ↔ 0 < p.2) := by
    intro p hp
    obtain ⟨hio, hps⟩ := hshape p hp
    constructor
    · intro hmem
      rw [hps, hposdef _ hmem]
      positivity
    · intro hpos
      by_contra hmem
      rw [hps, hzero _ hmem] at hpos
      exact lt_irrefl 0 hpos
  have hdichot : ∀ p ∈ s, 0 < p.2 ∨ p.2 = 0 := by
    intro p hp
    by_cases hmem : p.1 ∈ L
    · exact Or.inl ((hLpos p hp).mp hmem)
    · exact Or.inr ((hshape p hp).2 ▸ hzero _ hmem)
  obtain ⟨P, Z, hsplit, hP, hZ⟩ := sorted_pos_split s hsorted hdichot
  have hsubP : ∀ p ∈ P, p ∈ s := by
    intro p hp
    rw [hsplit]
    exact List.mem_append.mpr (Or.inl hp)
  have hsubZ : ∀ p ∈ Z, p ∈ s := by
    intro p hp
    rw [hsplit]
    exact List.mem_append.mpr (Or.inr hp)
  have hfilterP : ∀ m : Nat, (P.take m).filter (fun p => decide (p.1 ∈ L)) = P.take m := by
    intro m
    rw [List.filter_eq_self]
    intro p hp
    have hpP : p ∈ P := List.take_subset m P hp
    exact decide_eq_true ((hLpos p (hsubP p hpP)).mpr (hP p hpP))
  have hfilterZ : ∀ m : Nat, (Z.take m).filter (fun p => decide (p.1 ∈ L)) = [] := by
    intro m
    rw [List.filter_eq_nil_iff]
    intro p hp
    have hpZ : p ∈ Z := List.take_subset m Z hp
    simp only [decide_eq_true_eq]
    intro hmem
    have h1 := (hLpos p (hsubZ p hpZ)).mp hmem
    rw [hZ p hpZ] at h1
    exact lt_irrefl 0 h1
  have hfs : s.filter (fun p => decide (p.1 ∈ L)) = P := by
    rw [hsplit, List.filter_append]
    have e1 := hfilterP P.length
    rw [List.take_length] at e1
    have e2 := hfilterZ Z.length
    rw [List.take_length] at e2
    rw [e1, e2, List.append_nil]
  have hpermOrder : List.Perm (s.map Prod.fst) setOrder := by
    have h1 := hperm.map Prod.fst
    have h2 : (setOrder.map (fun i => (i, σ i))).map Prod.fst = setOrder := by
      rw [List.map_map]
      exact List.map_id'' (fun x => rfl) setOrder
    rw [h2] at h1
    exact h1
  have hperm2 : List.Perm (P.map Prod.fst) L := by
    have e1 : P.map Prod.fst = (s.map Prod.fst).filter (fun i => decide (i ∈ L)) := by
      rw [filter_map_fst, hfs]
    rw [e1]
    refine (hpermOrder.filter _).trans ?_
    apply (List.perm_ext_iff_of_nodup (ho.filter _) hL).mpr
    intro a
    simp only [List.mem_filter, decide_eq_true_eq]
    exact ⟨fun h => h.2, fun h => ⟨hsub a h, h⟩⟩
  have hinj : ∀ a ∈ L, ∀ b ∈ L, σ a = σ b → a = b := by
    intro a ha b hb heq
    rw [hposdef a ha, hposdef b hb, one_div, one_div] at heq
    have h1 : ((L.indexOf a : ℚ) + 1) = ((L.indexOf b : ℚ) + 1) := inv_inj.mp heq
    have h1' : (L.indexOf a : ℚ) = (L.indexOf b : ℚ) := by linarith
    have h2 : L.indexOf a = L.indexOf b := by exact_mod_cast h1'
    exact (List.indexOf_inj ha hb).mp h2
  have hwkP : List.Pairwise (fun x y : String × ℚ => y.2 ≤ x.2) P := by
    rw [hsplit] at hsorted
    exact (List.pairwise_append.mp hsorted).1
  have hweak : List.Pairwise (fun x y : String => σ y ≤ σ x) (P.map Prod.fst) := by
    rw [List.pairwise_map]
    refine hwkP.imp_of_mem ?_
    intro a b ha hb hle
    rw [← (hshape a (hsubP a ha)).2, ← (hshape b (hsubP b hb)).2]
    exact hle
  have hndP : (P.map Prod.fst).Nodup := hperm2.nodup_iff.mpr hL
  have hstrictP : List.Pairwise (fun x y : String => σ y < σ x) (P.map Prod.fst) := by
    refine (hweak.and hndP).imp_of_mem ?_
    intro a b ha hb hab
    rcases lt_or_eq_of_le hab.1 with h | h
    · exact h
    · exact absurd (hinj a (hperm2.mem_iff.mp ha) b (hperm2.mem_iff.mp hb) h.symm)
        hab.2
  have hstrictL : List.Pairwise (fun x y : String => σ y < σ x) L :=
    strict_sorted_of_rank L σ hL hposdef
  have hPL : P.map Prod.fst = L := by
    letI : IsAntisymm String (fun x y => σ y < σ x) :=
      ⟨fun a b h1 h2 => absurd (lt_trans h1 h2) (lt_irrefl _)⟩
    exact List.eq_of_perm_of_sorted hperm2 hstrictP hstrictL
  rw [filter_map_fst, hsplit, List.take_append_eq_append_take, List.filter_append,
    hfilterP k, hfilterZ (k - P.length), List.append_nil, List.map_take, hPL]

/-- C5: for all semantic and keyword result lists (with well-defined ranks,
i.e. no duplicate stable ids) and every `alpha ∈ [0,1]`, weighted rank
fusion assigns each document id the score
`alpha*(1/(semantic_rank+1)) + (1-alpha)*(1/(keyword_rank+1))` with an
absent side contributing 0, sorts descending (stably) and returns the top
`final_top_k`; with `alpha = 1` the output order restricted to the
documents of the semantic list reproduces the semantic order, and with
`alpha = 0` it likewise reproduces the lexical order — for every
enumeration `setOrder` of the id union (Python's set iteration order is
unspecified). -/
theorem weighted_fuse_by_rank_spec
    (semantic keyword setOrder : List String) (alpha : ℚ) (final_k : Nat)
    (hs : semantic.Nodup) (hk : keyword.Nodup) (ho : setOrder.Nodup)
    (hsemsub : ∀ i ∈ semantic, i ∈ setOrder)
    (hkeysub : ∀ i ∈ keyword, i ∈ setOrder)
    (halpha : 0 ≤ alpha ∧ alpha ≤ 1) :
    (∀ p ∈ weighted_fuse_by_rank semantic keyword alpha final_k setOrder,
      p.2 = alpha * (if p.1 ∈ semantic then 1 / ((semantic.indexOf p.1 : ℚ) + 1) else 0)
        + (1 - alpha) * (if p.1 ∈ keyword then 1 / ((keyword.indexOf p.1 : ℚ) + 1) else 0))
    ∧ List.Sorted (fun a b : String × ℚ => b.2 ≤ a.2)
        (weighted_fuse_by_rank semantic keyword alpha final_k setOrder)
    ∧ (weighted_fuse_by_rank semantic keyword alpha final_k setOrder).length
        = min final_k setOrder.length
    ∧ (alpha = 1 →
        ((weighted_fuse_by_rank semantic keyword alpha final_k setOrder).map
          Prod.fst).filter (fun i => decide (i ∈ semantic))
          = semantic.take final_k)
    ∧ (alpha = 0 →
        ((weighted_fuse_by_rank semantic keyword alpha final_k setOrder).map
          Prod.fst).filter (fun i => decide (i ∈ keyword))
          = keyword.take final_k) := by
  refine ⟨?_, ?_, ?_, ?_, ?_⟩
  · intro p hp
    have hps : p ∈ pySortDescBy Prod.snd
        (setOrder.map (fun i => (i, fusedScore semantic keyword alpha i))) :=
      List.take_subset _ _ hp
    obtain ⟨i, hi, hieq⟩ :=
      List.mem_map.mp ((pySortDescBy_perm _ _).mem_iff.mp hps)
    rw [← hieq]
    show fusedScore semantic keyword alpha i
        = alpha * (if i ∈ semantic then 1 / ((semantic.indexOf i : ℚ) + 1) else 0)
          + (1 - alpha) * (if i ∈ keyword then 1 / ((keyword.indexOf i : ℚ) + 1) else 0)
    unfold fusedScore
    by_cases h1 : i ∈ semantic <;> by_cases h2 : i ∈ keyword
    · rw [rankNorm_of_mem hs h1, rankNorm_of_mem hk h2, if_pos h1, if_pos h2]
    · rw [rankNorm_of_mem hs h1, rankNorm_of_not_mem hk h2, if_pos h1, if_neg h2]
    · rw [rankNorm_of_not_mem hs h1, rankNorm_of_mem hk h2, if_neg h1, if_pos h2]
    · rw [rankNorm_of_not_mem hs h1, rankNorm_of_not_mem hk h2, if_neg h1, if_neg h2]
  · exact (pySortDescBy_sorted Prod.snd _).sublist (List.take_sublist _ _)
  · rw [weighted_fuse_by_rank, List.length_take,
      (pySortDescBy_perm Prod.snd _).length_eq, List.length_map]
  · intro h1
    subst h1
    refine fuse_restrict_general semantic setOrder
      (fusedScore semantic keyword 1) final_k hs ho hsemsub ?_ ?_
    · intro i hi
      unfold fusedScore
      rw [rankNorm_of_mem hs hi]
      ring
    · intro i hi
      unfold fusedScore
      rw [rankNorm_of_not_mem hs hi]
      ring
  · intro h0
    subst h0
    refine fuse_restrict_general keyword setOrder
      (fusedScore semantic keyword 0) final_k hk ho hkeysub ?_ ?_
    · intro i hi
      unfold fusedScore
      rw [rankNorm_of_mem hk hi]
      ring
    · intro i hi
      unfold fusedScore
      rw [rankNorm_of_not_mem hk hi]
      ring

/-- C5 witness: the semantic-order restriction property applied to concrete
two-element lists with `alpha = 1`, over the canonical union enumeration. -/
theorem weighted_fuse_by_rank_spec_witness :
    ((weighted_fuse_by_rank ["a", "b"] ["b", "c"] 1 2
        (unionOrder ["a", "b"] ["b", "c"])).map Prod.fst).filter
      (fun i => decide (i ∈ (["a", "b"] : List String)))
      = (["a", "b"] : List String).take 2 :=
  (weighted_fuse_by_rank_spec ["a", "b"] ["b", "c"] (unionOrder ["a", "b"] ["b", "c"])
      1 2 (by decide) (by decide) (by decide) (by decide) (by decide)
      (by norm_num)).2.2.2.1 rfl
